import Mathlib

/-!
Verification development for the beam-search decoding engine of the
fairseq2 repository (the `fairseq2.generate.search` module).

The `search` module itself is not part of the source tree available here;
only its test suite (`tests/generate/test_search.py`) is.  The engine is
therefore modelled from the specification, with every concrete behaviour
that the test suite pins down (buffer capacities, error messages, the
shape of `finalize` results, tie-breaking of the beam selector) taken
from the tests.

Numeric model: the engine computes with floating-point tensors whose
values are log-probabilities.  We model a float as an extended rational
(`XVal`): a finite rational, `+inf`, `-inf`, or `NaN`, with IEEE-style
propagation in arithmetic.  The only transcendental ingredient is the
log-sum-exp of a row of finite values inside log-softmax; every
definition is parameterised by a function `lse : List ℚ → ℚ` standing
for that finite part, so all theorems hold for every realisation of it
(in particular for the true real-valued log-sum-exp).  Concrete
witnesses instantiate `lse` with an executable stand-in.
-/

namespace Fairseq2

/-- Extended value: a floating-point scalar modelled as a rational with
`NaN`, `+inf` and `-inf` adjoined. -/
inductive XVal where
  | nan : XVal
  | posInf : XVal
  | negInf : XVal
  | fin : ℚ → XVal
deriving DecidableEq, Repr

namespace XVal

/-- IEEE-style negation. -/
def neg : XVal → XVal
  | nan => nan
  | posInf => negInf
  | negInf => posInf
  | fin q => fin (-q)

/-- IEEE-style addition: `NaN` propagates, `+inf + -inf = NaN`. -/
def add : XVal → XVal → XVal
  | nan, _ => nan
  | _, nan => nan
  | posInf, negInf => nan
  | negInf, posInf => nan
  | posInf, _ => posInf
  | _, posInf => posInf
  | negInf, _ => negInf
  | _, negInf => negInf
  | fin a, fin b => fin (a + b)

/-- IEEE-style subtraction. -/
def sub (a b : XVal) : XVal := a.add b.neg

/-- Division by a rational scalar (used with positive divisors only:
temperature scaling and length normalization). -/
def divQ (a : XVal) (c : ℚ) : XVal :=
  match a with
  | nan => nan
  | posInf => posInf
  | negInf => negInf
  | fin q => fin (q / c)

def isNaN : XVal → Bool
  | nan => true
  | _ => false

def isPosInf : XVal → Bool
  | posInf => true
  | _ => false

def isNegInf : XVal → Bool
  | negInf => true
  | _ => false

def isFinite : XVal → Bool
  | fin _ => true
  | _ => false

/-- The finite payload, when there is one. -/
def toQ : XVal → Option ℚ
  | fin q => some q
  | _ => none

/-- Order key embedding `XVal` into a linear order; `NaN` is placed at
the bottom (it never reaches a comparison in the engine: log-softmax
replaces every `NaN` by `-inf` before any selection). -/
def key : XVal → ℤ ×ₗ ℚ
  | nan => toLex (0, 0)
  | negInf => toLex (1, 0)
  | fin q => toLex (2, q)
  | posInf => toLex (3, 0)

/-- Floating-point style strict comparison on non-`NaN` values
(`a < b`); any comparison involving `NaN` is false. -/
def ltb : XVal → XVal → Bool
  | nan, _ => false
  | _, nan => false
  | negInf, negInf => false
  | negInf, _ => true
  | _, negInf => false
  | posInf, _ => false
  | _, posInf => true
  | fin a, fin b => decide (a < b)

theorem key_inj : ∀ {a b : XVal}, key a = key b → a = b := by
  intro a b h
  cases a <;> cases b <;>
    simp only [key, toLex_inj, Prod.mk.injEq] at h <;>
    first
      | rfl
      | exact absurd h.1 (by decide)
      | exact congrArg XVal.fin h.2

theorem ltb_iff_key_lt {a b : XVal} (ha : a.isNaN = false) (hb : b.isNaN = false) :
    a.ltb b = true ↔ key a < key b := by
  cases a <;> cases b <;>
    simp_all [ltb, key, isNaN, Prod.Lex.lt_iff]

end XVal

/-- Sorting precedence for top-k selection over `(flattened index, value)`
pairs: larger value first, ties broken by smaller index first.  This is
the ordering of `torch.topk` as pinned by the tests (value descending,
flattened index ascending). -/
def selLE (a b : ℕ × XVal) : Prop :=
  XVal.key b.2 < XVal.key a.2 ∨ (XVal.key a.2 = XVal.key b.2 ∧ a.1 ≤ b.1)

instance : DecidableRel selLE := by
  intro a b
  unfold selLE
  infer_instance

instance : IsTotal (ℕ × XVal) selLE := by
  constructor
  intro a b
  rcases lt_trichotomy (XVal.key a.2) (XVal.key b.2) with h | h | h
  · exact Or.inr (Or.inl h)
  · rcases Nat.le_total a.1 b.1 with h2 | h2
    · exact Or.inl (Or.inr ⟨h, h2⟩)
    · exact Or.inr (Or.inr ⟨h.symm, h2⟩)
  · exact Or.inl (Or.inl h)

instance : IsTrans (ℕ × XVal) selLE := by
  constructor
  intro a b c hab hbc
  rcases hab with h1 | ⟨h1, h1i⟩ <;> rcases hbc with h2 | ⟨h2, h2i⟩
  · exact Or.inl (lt_trans h2 h1)
  · exact Or.inl (h2 ▸ h1)
  · exact Or.inl (h1 ▸ h2)
  · exact Or.inr ⟨h1.trans h2, le_trans h1i h2i⟩

/-- Exact top-k selection: stable-sort the `(index, value)` pairs by
value descending / index ascending, keep the first `k`. -/
def topSelect (k : ℕ) (pairs : List (ℕ × XVal)) : List (ℕ × XVal) :=
  (pairs.insertionSort selLE).take k

theorem topSelect_length (k : ℕ) (pairs : List (ℕ × XVal)) :
    (topSelect k pairs).length = min k pairs.length := by
  simp [topSelect, List.length_take, (List.perm_insertionSort selLE pairs).length_eq]

theorem topSelect_subset {k : ℕ} {pairs : List (ℕ × XVal)} {p : ℕ × XVal}
    (h : p ∈ topSelect k pairs) : p ∈ pairs :=
  (List.perm_insertionSort selLE pairs).mem_iff.1
    ((List.take_sublist k (pairs.insertionSort selLE)).mem h)

theorem topSelect_sorted (k : ℕ) (pairs : List (ℕ × XVal)) :
    (topSelect k pairs).Pairwise selLE :=
  List.Pairwise.sublist (List.take_sublist k (pairs.insertionSort selLE))
    (List.sorted_insertionSort selLE pairs)

/-- Every pair that was not selected is dominated by every selected pair. -/
theorem topSelect_dominates {k : ℕ} {pairs : List (ℕ × XVal)} {p : ℕ × XVal}
    (hp : p ∈ pairs) (hnot : p ∉ topSelect k pairs) :
    ∀ q ∈ topSelect k pairs, selLE q p := by
  intro q hq
  have hs : pairs.insertionSort selLE =
      topSelect k pairs ++ (pairs.insertionSort selLE).drop k :=
    (List.take_append_drop k (pairs.insertionSort selLE)).symm
  have hsorted : (pairs.insertionSort selLE).Pairwise selLE :=
    List.sorted_insertionSort selLE pairs
  have hpmem : p ∈ pairs.insertionSort selLE :=
    (List.perm_insertionSort selLE pairs).mem_iff.2 hp
  rw [hs] at hpmem hsorted
  rcases List.mem_append.1 hpmem with h | h
  · exact absurd h hnot
  · exact (List.pairwise_append.1 hsorted).2.2 q hq p h

/-- The selected indices are pairwise distinct whenever the input indices are. -/
theorem topSelect_nodup_fst {k : ℕ} {pairs : List (ℕ × XVal)}
    (h : (pairs.map Prod.fst).Nodup) :
    ((topSelect k pairs).map Prod.fst).Nodup := by
  have hperm : ((pairs.insertionSort selLE).map Prod.fst).Nodup :=
    h.perm ((List.perm_insertionSort selLE pairs).map Prod.fst).symm
  exact List.Nodup.sublist
    (List.Sublist.map Prod.fst (List.take_sublist k (pairs.insertionSort selLE))) hperm

/-- Modelled from the spec: fixed vocabulary metadata consumed by the
search engine (`{size, bos, eos, unk, pad}`), read-only for a run.
Field names follow the constructor calls in the tests. -/
structure VocabularyInfo where
  size : ℕ
  bos_idx : ℕ
  eos_idx : ℕ
  unk_idx : ℕ
  pad_idx : ℕ
deriving DecidableEq, Repr

/-- Modelled from the spec: the `BeamSearchStrategy` configuration record
(beam size, length bounds, penalties, temperature, score normalization),
all fixed at construction.  `len_penalty` is the exponent of the length
normalization (the tests never exercise a non-integral exponent, so it
is modelled as a natural exponent); `temperature` scales logits before
log-softmax, `0` being the skip-scaling sentinel. -/
structure BeamSearchStrategy where
  vocab_info : VocabularyInfo
  beam_size : ℕ := 2
  min_len : ℕ := 0
  max_len : ℕ
  len_penalty : ℕ := 1
  unk_penalty : ℚ := 1
  temperature : ℚ := 1/10
  normalize_scores : Bool := false
deriving DecidableEq, Repr

/-- Modelled from the spec: the optional prefix argument of
`new_search_job` — omitted, a single shared prefix, or one prefix per
batch element. -/
inductive PrefixSpec where
  | none : PrefixSpec
  | single : List ℕ → PrefixSpec
  | perBatch : List (List ℕ) → PrefixSpec
deriving DecidableEq, Repr

/-- Modelled from the spec: the `SearchJob` state machine.  `tokens` and
`scores` are [batch, beam, time] arrays (time capacity `max_len + 2`, as
pinned by `test_prepare_state_noprefix`), `finished_mask` is
[batch, beam], `step` counts completed decoding steps, `done` is the
terminal flag. -/
structure SearchJob where
  opts : BeamSearchStrategy
  batch_size : ℕ
  beam_size : ℕ
  max_len : ℕ
  n_prefix_tokens : ℕ
  step : ℕ
  done : Bool
  tokens : List (List (List ℕ))
  scores : List (List (List XVal))
  finished_mask : List (List Bool)
deriving DecidableEq, Repr

/-- Modelled from the spec: the ephemeral per-step output of the beam
selector — winning cumulative scores, winning tokens, and the source
beam each winner descends from, each shaped [batch, beam]. -/
structure SelectionResult where
  scores : List (List XVal)
  tokens : List (List ℕ)
  beams : List (List ℕ)
deriving DecidableEq, Repr

/-- Modelled from the spec: the result of `finalize` — tokens and scores
of the emitted hypotheses, [batch, k_or_beam, time]. -/
structure SearchResult where
  tokens : List (List (List ℕ))
  scores : List (List (List XVal))
deriving DecidableEq, Repr

/-- Temperature scaling: divide logits by the temperature when it is
positive; `0` (and any non-positive value) is the skip-scaling sentinel. -/
def scaleRow (temperature : ℚ) (r : List XVal) : List XVal :=
  if 0 < temperature then r.map (fun v => v.divQ temperature) else r

/-- One row of log-softmax over the extended values.  A row containing
`NaN` is all-`NaN`; otherwise the log-sum-exp `L` is `+inf` if any entry
is `+inf`, `-inf` if all entries are `-inf`, and otherwise the finite
value `lse` of the finite entries (`exp (-inf) = 0` contributes
nothing); each entry is then `x - L`. -/
def logSoftmaxRow (lse : List ℚ → ℚ) (r : List XVal) : List XVal :=
  if r.any XVal.isNaN then r.map (fun _ => XVal.nan)
  else
    let L : XVal :=
      if r.any XVal.isPosInf then XVal.posInf
      else if r.all XVal.isNegInf then XVal.negInf
      else XVal.fin (lse (r.filterMap XVal.toQ))
    r.map (fun v => v.sub L)

/-- Replace every `NaN` by `-inf` (the containment step
`log_prob[log_prob != log_prob] = -inf` of the source). -/
def nanToNegInf (r : List XVal) : List XVal :=
  r.map (fun v => if v.isNaN then XVal.negInf else v)

/-- `dec_out_to_log_prob`, one row: temperature-scale, log-softmax,
replace `NaN` by `-inf`, then structurally exclude `pad` and `bos`. -/
def dec_out_to_log_prob_row (lse : List ℚ → ℚ) (temperature : ℚ)
    (pad bos : ℕ) (r : List XVal) : List XVal :=
  ((nanToNegInf (logSoftmaxRow lse (scaleRow temperature r))).set pad
      XVal.negInf).set bos XVal.negInf

/-- Modelled from the spec: `dec_out_to_log_prob(dec_out, temperature,
pad, bos)` — converts raw per-token scores [rows, vocab] into masked
log-probabilities.  Total: poisoned (NaN/Inf) rows are propagated, not
rejected. -/
def dec_out_to_log_prob (lse : List ℚ → ℚ) (dec_out : List (List XVal))
    (temperature : ℚ) (pad bos : ℕ) : List (List XVal) :=
  dec_out.map (dec_out_to_log_prob_row lse temperature pad bos)

/-- Modelled from the spec: `force_token_(lprobs, token)` — for every
row, keep the log-probability of `token` and set every other entry to
`-inf`, forcing that token to be selected. -/
def force_token_row (token : ℕ) (r : List XVal) : List XVal :=
  r.mapIdx (fun t v => if t = token then v else XVal.negInf)

def force_token_ (lprobs : List (List XVal)) (token : ℕ) : List (List XVal) :=
  lprobs.map (force_token_row token)

/-- A row in which `pad` has log-probability `0` and every other token
`-inf`: the distribution forced onto a finished beam. -/
def padForcedRow (pad width : ℕ) : List XVal :=
  (List.range width).map (fun t => if t = pad then XVal.fin 0 else XVal.negInf)

/-- `_log_prob`, one row: `dec_out_to_log_prob` followed by the
step-aware masking — subtract `unk_penalty` at `unk`, force `eos` to
`-inf` before `min_len`, and force every non-`eos` token to `-inf` once
`step` reaches `max_len`. -/
def logProbRow (lse : List ℚ → ℚ) (o : BeamSearchStrategy)
    (step max_len : ℕ) (r : List XVal) : List XVal :=
  let V := o.vocab_info
  let lp := dec_out_to_log_prob_row lse o.temperature V.pad_idx V.bos_idx r
  let lp := lp.set V.unk_idx ((lp.getD V.unk_idx XVal.negInf).sub (XVal.fin o.unk_penalty))
  let lp := if step < o.min_len then lp.set V.eos_idx XVal.negInf else lp
  if max_len ≤ step then
    lp.mapIdx (fun t v => if t = V.eos_idx then v else XVal.negInf)
  else lp

/-- Modelled from the spec: `SearchJob._log_prob(dec_out, step, max_len)`
applies the step-aware masked log-probability transform to every row. -/
def SearchJob._log_prob (lse : List ℚ → ℚ) (job : SearchJob)
    (dec_out : List (List XVal)) (step max_len : ℕ) : List (List XVal) :=
  dec_out.map (logProbRow lse job.opts step max_len)

/-- Modelled from the spec: `_stretch_to_beams(t, beams)` — repeat each
leading-dimension element `beams` times consecutively
(`repeat_interleave` along dim 0), used to widen a one-beam tensor to
the full beam count. -/
def _stretch_to_beams {α : Type} (t : List α) (beams : ℕ) : List α :=
  (t.map (fun x => List.replicate beams x)).flatten

/-- Token row of a (batch, beam) slot. -/
def SearchJob.tokRow (job : SearchJob) (b i : ℕ) : List ℕ :=
  (job.tokens.getD b []).getD i []

/-- Score row of a (batch, beam) slot. -/
def SearchJob.scoreRow (job : SearchJob) (b i : ℕ) : List XVal :=
  (job.scores.getD b []).getD i []

/-- Token of a (batch, beam) slot at time `t`. -/
def SearchJob.tokAt (job : SearchJob) (b i t : ℕ) : ℕ :=
  (job.tokRow b i).getD t 0

/-- Cumulative score of a (batch, beam) slot at time `t`. -/
def SearchJob.scoreAt (job : SearchJob) (b i t : ℕ) : XVal :=
  (job.scoreRow b i).getD t (XVal.fin 0)

/-- Finished flag of a (batch, beam) slot. -/
def SearchJob.finishedAt (job : SearchJob) (b i : ℕ) : Bool :=
  (job.finished_mask.getD b []).getD i false

/-- Number of rows of the flattened [batch * beam] view. -/
def SearchJob.flat_size (job : SearchJob) : ℕ :=
  job.batch_size * job.beam_size

/-- Modelled from the spec: `BeamSearchStrategy.new_search_job
(src_tokens, prefix_tokens)`.  Derives the per-batch `max_len` as
`min(configured_max_len, 2 * source_len + 10)` (the length floor `10` is
pinned by the tests), resolves the prefix (a lone `bos` when omitted),
validates the configuration, and allocates the token/score/finished
state: tokens hold the prefix then `pad`, scores are all zero, no beam
is finished, `step` is `0`.  The time capacity of `tokens` and `scores`
is `max_len + 2`, as pinned by `test_prepare_state_noprefix` (capacity
20 for `max_len` 18 with a 1-token prefix). -/
def BeamSearchStrategy.new_search_job (o : BeamSearchStrategy)
    (src_tokens : List (List ℕ)) (prefix_tokens : PrefixSpec) :
    Except String SearchJob :=
  let batch_size := src_tokens.length
  let src_len := (src_tokens.getD 0 []).length
  let max_len := min o.max_len (2 * src_len + 10)
  let pre : ℕ → List ℕ :=
    match prefix_tokens with
    | .none => fun _ => [o.vocab_info.bos_idx]
    | .single p => fun _ => p
    | .perBatch ps => fun b => ps.getD b []
  let n := (pre 0).length
  if batch_size = 0 ∨ src_len = 0 then .error "src_tokens must be non-empty"
  else if o.beam_size = 0 then .error "beam_size must be positive"
  else if max_len ≤ n then .error "prefix length must be smaller than max_len"
  else .ok {
    opts := o
    batch_size := batch_size
    beam_size := o.beam_size
    max_len := max_len
    n_prefix_tokens := n
    step := 0
    done := false
    tokens := (List.range batch_size).map (fun b =>
      (List.range o.beam_size).map (fun _ =>
        (List.range (max_len + 2)).map (fun t =>
          if t < n then (pre b).getD t o.vocab_info.pad_idx
          else o.vocab_info.pad_idx)))
    scores := (List.range batch_size).map (fun _ =>
      (List.range o.beam_size).map (fun _ =>
        List.replicate (max_len + 2) (XVal.fin 0)))
    finished_mask := (List.range batch_size).map (fun _ =>
      List.replicate o.beam_size false) }

/-- The `(index, value)` pairs fed to top-k selection: index `k` paired
with the value of `f` at `k`, for `k < n`. -/
def idxPairs (n : ℕ) (f : ℕ → XVal) : List (ℕ × XVal) :=
  (List.range n).map (fun k => (k, f k))

/-- The flattened view of a [input_beam, vocab] candidate array: entry
`k` is the candidate of source beam `k / v` and token `k % v`. -/
def flatCand (bm : List (List XVal)) (v k : ℕ) : XVal :=
  (bm.getD (k / v) []).getD (k % v) XVal.negInf

/-- Modelled from the spec: `SearchJob._choose_beams(ps)` — per batch
element, flatten the (input_beam, vocab) candidate array and take the
top `beam_size` entries by value descending, ties broken by flattened
index ascending; each winning flattened index `k` decodes into source
beam `k / vocab` and token `k % vocab`.  While `step ≤ n_prefix_tokens`
the beams of a batch element are still identical, so only the first
input beam is considered (the tests bump `step` by 2 before calling
`_choose_beams` directly for exactly this reason). -/
def SearchJob._choose_beams (job : SearchJob) (ps : List (List (List XVal))) :
    SelectionResult :=
  let ps := if job.step ≤ job.n_prefix_tokens then ps.map (fun bm => bm.take 1) else ps
  let v := ((ps.getD 0 []).getD 0 []).length
  let pick : List (List XVal) → List (ℕ × XVal) := fun bm =>
    topSelect job.beam_size (idxPairs (bm.length * v) (flatCand bm v))
  { scores := ps.map (fun bm => (pick bm).map (fun p => p.2))
    tokens := ps.map (fun bm => (pick bm).map (fun p => p.1 % v))
    beams := ps.map (fun bm => (pick bm).map (fun p => p.1 / v)) }

def SelectionResult.beamAt (s : SelectionResult) (b j : ℕ) : ℕ :=
  (s.beams.getD b []).getD j 0

def SelectionResult.tokenAt (s : SelectionResult) (b j : ℕ) : ℕ :=
  (s.tokens.getD b []).getD j 0

def SelectionResult.scoreAt (s : SelectionResult) (b j : ℕ) : XVal :=
  (s.scores.getD b []).getD j XVal.negInf

/-- The masked log-probability row of input beam `i` of batch element
`b` for the upcoming step: `_log_prob` at step `step + 1`, then the
forced-prefix constraint while the prefix is still being emitted, then
the forced-`pad` distribution for a finished beam (spec step 2). -/
def SearchJob.stepLprobs (lse : List ℚ → ℚ) (job : SearchJob)
    (dec_out : List (List XVal)) (b i : ℕ) : List XVal :=
  let lp := (job._log_prob lse dec_out (job.step + 1) job.max_len).getD
    (b * job.beam_size + i) []
  let lp := if job.step + 1 < job.n_prefix_tokens
    then force_token_row (job.tokAt b i (job.step + 1)) lp else lp
  if job.finishedAt b i then padForcedRow job.opts.vocab_info.pad_idx lp.length else lp

/-- Joint candidate scores for the upcoming step (spec step 3): each
input beam's running cumulative score broadcast-added to its masked
log-probability row, shape [batch, input_beam, vocab]. -/
def SearchJob.stepCand (lse : List ℚ → ℚ) (job : SearchJob)
    (dec_out : List (List XVal)) : List (List (List XVal)) :=
  (List.range job.batch_size).map (fun b =>
    (List.range job.beam_size).map (fun i =>
      (job.stepLprobs lse dec_out b i).map (fun x => (job.scoreAt b i job.step).add x)))

/-- The selection made by `update` (spec step 4): `_choose_beams` on the
joint candidate scores, with `step` already advanced as in the source. -/
def SearchJob.stepSel (lse : List ℚ → ℚ) (job : SearchJob)
    (dec_out : List (List XVal)) : SelectionResult :=
  SearchJob._choose_beams { job with step := job.step + 1 } (job.stepCand lse dec_out)

/-- The token row written into slot (b, j) by the upcoming step: the
selected source beam's entire history with the winning token appended at
position `step + 1` — or `pad` appended when the source beam was already
finished (spec steps 5-6). -/
def SearchJob.stepTokRow (lse : List ℚ → ℚ) (job : SearchJob)
    (dec_out : List (List XVal)) (b j : ℕ) : List ℕ :=
  ((job.tokRow b ((job.stepSel lse dec_out).beamAt b j)).set (job.step + 1)
    (if job.finishedAt b ((job.stepSel lse dec_out).beamAt b j)
     then job.opts.vocab_info.pad_idx
     else (job.stepSel lse dec_out).tokenAt b j))

/-- The score row written into slot (b, j) by the upcoming step: the
selected source beam's entire history with the winning cumulative score
appended at position `step + 1` — frozen to the source's previous score
when the source beam was already finished (spec steps 5-6). -/
def SearchJob.stepScoreRow (lse : List ℚ → ℚ) (job : SearchJob)
    (dec_out : List (List XVal)) (b j : ℕ) : List XVal :=
  ((job.scoreRow b ((job.stepSel lse dec_out).beamAt b j)).set (job.step + 1)
    (if job.finishedAt b ((job.stepSel lse dec_out).beamAt b j)
     then job.scoreAt b ((job.stepSel lse dec_out).beamAt b j) job.step
     else (job.stepSel lse dec_out).scoreAt b j))

/-- The finished flag of slot (b, j) after the upcoming step: the slot's
previous flag OR-ed with "the selected token is `eos`" (spec step 7 —
never un-finish). -/
def SearchJob.stepMask (lse : List ℚ → ℚ) (job : SearchJob)
    (dec_out : List (List XVal)) (b j : ℕ) : Bool :=
  job.finishedAt b j ||
    ((job.stepSel lse dec_out).tokenAt b j == job.opts.vocab_info.eos_idx)

/-- One accepted decoding step (spec steps 1-8): select the new beam
set, re-derive every slot's token/score history from its source beam and
append the winner at position `step + 1`, force `pad` and a frozen score
onto any slot whose source beam was already finished, OR the finished
flags with `token == eos`, advance `step` and derive `done`. -/
def SearchJob.stepCore (lse : List ℚ → ℚ) (job : SearchJob)
    (dec_out : List (List XVal)) : SearchJob :=
  { job with
    step := job.step + 1
    tokens := (List.range job.batch_size).map (fun b =>
      (List.range job.beam_size).map (fun j => job.stepTokRow lse dec_out b j))
    scores := (List.range job.batch_size).map (fun b =>
      (List.range job.beam_size).map (fun j => job.stepScoreRow lse dec_out b j))
    finished_mask := (List.range job.batch_size).map (fun b =>
      (List.range job.beam_size).map (fun j => job.stepMask lse dec_out b j))
    done := decide (job.max_len ≤ job.step + 1) ||
      (List.range job.batch_size).all (fun b =>
        (List.range job.beam_size).all (fun j => job.stepMask lse dec_out b j)) }

/-- Modelled from the spec: `SearchJob.update(dec_out)` — fails on a
finished job ("done == True", the assertion text pinned by
`test_step_done`), accepts `batch * beam` rows (or `batch` rows on the
degenerate first call, widened via `_stretch_to_beams`), rejects any
other row count naming the beam-count contract, and otherwise performs
one decoding step. -/
def SearchJob.update (lse : List ℚ → ℚ) (job : SearchJob)
    (dec_out : List (List XVal)) : Except String SearchJob :=
  if job.done then .error "cannot update a finished job: done == True"
  else if dec_out.length = job.batch_size * job.beam_size then
    .ok (job.stepCore lse dec_out)
  else if dec_out.length = job.batch_size then
    .ok (job.stepCore lse (_stretch_to_beams dec_out job.beam_size))
  else .error "input_beam_size of dec_out must == 1 or beam_size"

/-- The ranking value `finalize(top=k)` sorts by: the final cumulative
score at position `step`, divided by `(step + 1) ^ len_penalty` when
`normalize_scores` is enabled (the divisor is the same for every beam of
the job, so the ranking it induces on the raw scores is unchanged). -/
def SearchJob.rankVal (job : SearchJob) (b i : ℕ) : XVal :=
  if job.opts.normalize_scores
  then (job.scoreAt b i job.step).divQ (((job.step + 1 : ℕ) : ℚ) ^ job.opts.len_penalty)
  else job.scoreAt b i job.step

def SearchJob.rankPairs (job : SearchJob) (b : ℕ) : List (ℕ × XVal) :=
  idxPairs job.beam_size (job.rankVal b)

/-- The beam indices kept by `finalize(top=k)` for batch element `b`:
top `k` by final score descending, ties by beam index ascending. -/
def SearchJob.topkIdx (job : SearchJob) (k b : ℕ) : List ℕ :=
  (topSelect k (job.rankPairs b)).map (fun p => p.1)

/-- Modelled from the spec: `SearchJob.finalize(top)` — with `top=None`
returns every beam's full rows (the source reshapes them to
[batch * beam, time]; the spec allows keeping the [batch, beam] shape
"per caller convention", and the tests pin that the time dimension is
the full buffer, not a truncation); with `top=k` returns, per batch
element, copies of the rows of the top `k` beams ranked by final
cumulative score descending, ties by beam index ascending. -/
def SearchJob.finalize (job : SearchJob) (top : Option ℕ) : SearchResult :=
  match top with
  | .none =>
      { tokens := (List.range job.batch_size).map (fun b =>
          (List.range job.beam_size).map (fun i => job.tokRow b i))
        scores := (List.range job.batch_size).map (fun b =>
          (List.range job.beam_size).map (fun i => job.scoreRow b i)) }
  | .some k =>
      { tokens := (List.range job.batch_size).map (fun b =>
          (job.topkIdx k b).map (fun i => job.tokRow b i))
        scores := (List.range job.batch_size).map (fun b =>
          (job.topkIdx k b).map (fun i => job.scoreRow b i)) }

/-- A placeholder job: the value read out of an `Except` that is known
to be an error (never used on the success path). -/
def emptyJob : SearchJob :=
  { opts := { vocab_info := ⟨0, 0, 0, 0, 0⟩, max_len := 0 }
    batch_size := 0, beam_size := 0, max_len := 0, n_prefix_tokens := 0
    step := 0, done := false, tokens := [], scores := [], finished_mask := [] }

/-- Read the job out of a creation/update result (defaulting to
`emptyJob`), for stating facts about concrete runs. -/
def okD (e : Except String SearchJob) : SearchJob :=
  match e with
  | .ok j => j
  | .error _ => emptyJob

/-- An executable stand-in for the finite part of log-sum-exp, used to
instantiate the `lse` parameter in concrete runs: the admissible range
of the true log-sum-exp is `[max xs, max xs + log n]`, and every
ordering fact used in concrete runs below is robust over that whole
range (the driving score gaps are orders of magnitude larger than
`log n`). -/
def maxQ (xs : List ℚ) : ℚ := xs.foldr max 0

theorem rangeMap_getD {α : Type} {n b : ℕ} (f : ℕ → α) (d : α) (h : b < n) :
    ((List.range n).map f).getD b d = f b := by
  have hb : b < ((List.range n).map f).length := by simpa using h
  rw [List.getD_eq_getElem _ _ hb, List.getElem_map, List.getElem_range]

theorem idxPairs_length (n : ℕ) (f : ℕ → XVal) : (idxPairs n f).length = n := by
  simp [idxPairs]

theorem idxPairs_map_fst (n : ℕ) (f : ℕ → XVal) :
    (idxPairs n f).map Prod.fst = List.range n := by
  unfold idxPairs
  rw [List.map_map]
  have hcomp : (Prod.fst ∘ fun k => (k, f k)) = @id ℕ := rfl
  rw [hcomp, List.map_id]

theorem idxPairs_nodup_fst (n : ℕ) (f : ℕ → XVal) :
    ((idxPairs n f).map Prod.fst).Nodup := by
  rw [idxPairs_map_fst]
  exact List.nodup_range n

theorem mem_idxPairs {n : ℕ} {f : ℕ → XVal} {p : ℕ × XVal}
    (h : p ∈ idxPairs n f) : p.1 < n ∧ p.2 = f p.1 := by
  rcases List.mem_map.1 h with ⟨k, hk, hkp⟩
  rcases hkp
  exact ⟨List.mem_range.1 hk, rfl⟩

theorem mem_idxPairs_self {n : ℕ} {f : ℕ → XVal} {i : ℕ} (h : i < n) :
    (i, f i) ∈ idxPairs n f :=
  List.mem_map.2 ⟨i, List.mem_range.2 h, rfl⟩

theorem tpk_length {k n : ℕ} (f : ℕ → XVal) (hk : k ≤ n) :
    (topSelect k (idxPairs n f)).length = k := by
  rw [topSelect_length, idxPairs_length]
  omega

theorem tpk_getD_mem {k n : ℕ} {f : ℕ → XVal} {j : ℕ} (d : ℕ × XVal)
    (hj : j < (topSelect k (idxPairs n f)).length) :
    (topSelect k (idxPairs n f)).getD j d ∈ idxPairs n f := by
  rw [List.getD_eq_getElem _ _ hj]
  exact topSelect_subset (List.getElem_mem hj)

theorem tpk_getD_shape {k n : ℕ} {f : ℕ → XVal} {j : ℕ} (d : ℕ × XVal)
    (hj : j < (topSelect k (idxPairs n f)).length) :
    ((topSelect k (idxPairs n f)).getD j d).1 < n ∧
    ((topSelect k (idxPairs n f)).getD j d).2 =
      f ((topSelect k (idxPairs n f)).getD j d).1 :=
  mem_idxPairs (tpk_getD_mem d hj)

theorem tpk_sorted_pair {k n : ℕ} {f : ℕ → XVal} {j1 j2 : ℕ} (d : ℕ × XVal)
    (h12 : j1 < j2) (hj2 : j2 < (topSelect k (idxPairs n f)).length) :
    selLE ((topSelect k (idxPairs n f)).getD j1 d)
      ((topSelect k (idxPairs n f)).getD j2 d) := by
  have hj1 : j1 < (topSelect k (idxPairs n f)).length := lt_trans h12 hj2
  rw [List.getD_eq_getElem _ _ hj1, List.getD_eq_getElem _ _ hj2]
  exact List.pairwise_iff_getElem.1 (topSelect_sorted k (idxPairs n f)) j1 j2 hj1 hj2 h12

theorem tpk_fst_ne {k n : ℕ} {f : ℕ → XVal} {j1 j2 : ℕ} (d : ℕ × XVal)
    (h12 : j1 < j2) (hj2 : j2 < (topSelect k (idxPairs n f)).length) :
    ((topSelect k (idxPairs n f)).getD j1 d).1 ≠
      ((topSelect k (idxPairs n f)).getD j2 d).1 := by
  have hj1 : j1 < (topSelect k (idxPairs n f)).length := lt_trans h12 hj2
  have hnodup := topSelect_nodup_fst (k := k) (idxPairs_nodup_fst n f)
  have hpw : (topSelect k (idxPairs n f)).Pairwise (fun a b => a.1 ≠ b.1) := by
    rw [List.Nodup, List.pairwise_map] at hnodup
    exact hnodup
  rw [List.getD_eq_getElem _ _ hj1, List.getD_eq_getElem _ _ hj2]
  exact List.pairwise_iff_getElem.1 hpw j1 j2 hj1 hj2 h12

theorem tpk_dominates_at {k n : ℕ} {f : ℕ → XVal} {i : ℕ} (d : ℕ × XVal)
    (hi : i < n)
    (hnot : ∀ j, j < (topSelect k (idxPairs n f)).length →
      ((topSelect k (idxPairs n f)).getD j d).1 ≠ i)
    {j : ℕ} (hj : j < (topSelect k (idxPairs n f)).length) :
    selLE ((topSelect k (idxPairs n f)).getD j d) (i, f i) := by
  have hmem : (i, f i) ∈ idxPairs n f := mem_idxPairs_self hi
  have hout : (i, f i) ∉ topSelect k (idxPairs n f) := by
    intro habs
    rcases List.mem_iff_getElem.1 habs with ⟨m, hm, hme⟩
    exact hnot m hm (by rw [List.getD_eq_getElem _ _ hm, hme])
  have := topSelect_dominates hmem hout
  rw [List.getD_eq_getElem _ _ hj]
  exact this _ (List.getElem_mem hj)

/-- Unpacking the selection order: between two pairs with distinct
indices and non-`NaN` values, `selLE` means strictly larger value or an
equal value with a strictly smaller index. -/
theorem selLE_cases {p q : ℕ × XVal} (h : selLE p q) (hne : p.1 ≠ q.1)
    (hp : p.2.isNaN = false) (hq : q.2.isNaN = false) :
    XVal.ltb q.2 p.2 = true ∨ (p.2 = q.2 ∧ p.1 < q.1) := by
  rcases h with h | ⟨he, hi⟩
  · exact Or.inl ((XVal.ltb_iff_key_lt hq hp).2 h)
  · exact Or.inr ⟨XVal.key_inj he, lt_of_le_of_ne hi hne⟩

theorem XVal.divQ_isNaN (c : ℚ) (a : XVal) : (a.divQ c).isNaN = a.isNaN := by
  cases a <;> rfl

theorem XVal.divQ_ltb {c : ℚ} (hc : 0 < c) (a b : XVal) :
    XVal.ltb (a.divQ c) (b.divQ c) = XVal.ltb a b := by
  cases a <;> cases b <;>
    simp only [XVal.divQ, XVal.ltb, decide_eq_decide] <;>
    try rfl
  exact div_lt_div_iff_of_pos_right hc

theorem rangeMap_reconstruct {α : Type} (m : List (List α)) (n1 n2 : ℕ) (d : α)
    (h1 : m.length = n1) (h2 : ∀ b, b < n1 → (m.getD b []).length = n2) :
    (List.range n1).map (fun b => (List.range n2).map (fun i => (m.getD b []).getD i d)) = m := by
  apply List.ext_getElem (by simpa using h1.symm)
  intro b hb1 hb2
  rw [List.getElem_map, List.getElem_range]
  have hbn : b < n1 := by simpa using hb1
  have hrow : m.getD b [] = m[b] := List.getD_eq_getElem m [] hb2
  apply List.ext_getElem
  · rw [← hrow]
    simpa using (h2 b hbn).symm
  · intro i hi1 hi2
    rw [List.getElem_map, List.getElem_range, hrow, List.getD_eq_getElem _ _ hi2]

theorem XVal.divQ_inj {c : ℚ} (hc : c ≠ 0) {a b : XVal}
    (h : a.divQ c = b.divQ c) : a = b := by
  cases a <;> cases b <;> simp only [XVal.divQ, XVal.fin.injEq] at h <;>
    first
      | rfl
      | exact XVal.noConfusion h
      | (field_simp at h
         exact congrArg XVal.fin h)

theorem scaleRow_length (t : ℚ) (r : List XVal) : (scaleRow t r).length = r.length := by
  unfold scaleRow
  split <;> simp

theorem logSoftmaxRow_length (lse : List ℚ → ℚ) (r : List XVal) :
    (logSoftmaxRow lse r).length = r.length := by
  unfold logSoftmaxRow
  split <;> simp

theorem nanToNegInf_length (r : List XVal) : (nanToNegInf r).length = r.length := by
  simp [nanToNegInf]

theorem dec_row_length (lse : List ℚ → ℚ) (t : ℚ) (pad bos : ℕ) (r : List XVal) :
    (dec_out_to_log_prob_row lse t pad bos r).length = r.length := by
  simp [dec_out_to_log_prob_row, nanToNegInf_length, logSoftmaxRow_length, scaleRow_length]

theorem XVal.divQ_isPosInf (c : ℚ) (a : XVal) : (a.divQ c).isPosInf = a.isPosInf := by
  cases a <;> rfl

theorem XVal.divQ_isNegInf (c : ℚ) (a : XVal) : (a.divQ c).isNegInf = a.isNegInf := by
  cases a <;> rfl

theorem XVal.divQ_isFinite (c : ℚ) (a : XVal) : (a.divQ c).isFinite = a.isFinite := by
  cases a <;> rfl

theorem scaleRow_any_isNaN (t : ℚ) (r : List XVal) :
    (scaleRow t r).any XVal.isNaN = r.any XVal.isNaN := by
  unfold scaleRow
  split
  · rw [List.any_map]
    have hcomp : (XVal.isNaN ∘ fun v => v.divQ t) = XVal.isNaN :=
      funext fun v => XVal.divQ_isNaN t v
    rw [hcomp]
  · rfl

theorem scaleRow_any_isPosInf (t : ℚ) (r : List XVal) :
    (scaleRow t r).any XVal.isPosInf = r.any XVal.isPosInf := by
  unfold scaleRow
  split
  · rw [List.any_map]
    have hcomp : (XVal.isPosInf ∘ fun v => v.divQ t) = XVal.isPosInf :=
      funext fun v => XVal.divQ_isPosInf t v
    rw [hcomp]
  · rfl

theorem scaleRow_getD (t : ℚ) (r : List XVal) (i : ℕ) (hi : i < r.length) :
    (scaleRow t r).getD i XVal.nan =
      if 0 < t then (r.getD i XVal.nan).divQ t else r.getD i XVal.nan := by
  unfold scaleRow
  split
  · rw [List.getD_eq_getElem _ _ (by simpa using hi), List.getElem_map,
      List.getD_eq_getElem _ _ hi]
  · rfl

theorem set_getD_self (l : List XVal) (i : ℕ) (v : XVal) (hi : i < l.length) :
    (l.set i v).getD i XVal.nan = v := by
  rw [List.getD_eq_getElem _ _ (by simpa using hi)]
  exact List.getElem_set_self _

theorem set_getD_ne (l : List XVal) (i j : ℕ) (v : XVal) (hj : j < l.length)
    (h : i ≠ j) : (l.set i v).getD j XVal.nan = l.getD j XVal.nan := by
  rw [List.getD_eq_getElem _ _ (by simpa using hj), List.getElem_set_ne h,
    List.getD_eq_getElem _ _ hj]

theorem mapIdx_getD (f : ℕ → XVal → XVal) (l : List XVal) (i : ℕ)
    (hi : i < l.length) :
    (l.mapIdx f).getD i XVal.nan = f i (l.getD i XVal.nan) := by
  rw [List.getD_eq_getElem _ _ (by simpa using hi), List.getElem_mapIdx,
    List.getD_eq_getElem _ _ hi]

/-- The two structural-exclusion writes at the end of
`dec_out_to_log_prob`: position `i` reads `-inf` if it is `pad` or
`bos`, and the underlying value otherwise. -/
theorem set2_getD (l : List XVal) (p q i : ℕ) (hi : i < l.length) :
    ((l.set p XVal.negInf).set q XVal.negInf).getD i XVal.nan =
      if q = i then XVal.negInf
      else if p = i then XVal.negInf
      else l.getD i XVal.nan := by
  have h1 : i < ((l.set p XVal.negInf).set q XVal.negInf).length := by simpa using hi
  rw [List.getD_eq_getElem _ _ h1, List.getElem_set]
  split
  · rfl
  · rw [List.getElem_set]
    split
    · rfl
    · rw [List.getD_eq_getElem _ _ hi]

/-- A `NaN`-poisoned row comes out of `dec_out_to_log_prob` as all
`-inf` (shared backbone of the NaN-propagation claims). -/
theorem dec_row_nan_all_neg_inf (lse : List ℚ → ℚ) (t : ℚ) (pad bos : ℕ)
    (r : List XVal) (h : r.any XVal.isNaN = true) (i : ℕ) (hi : i < r.length) :
    (dec_out_to_log_prob_row lse t pad bos r).getD i XVal.nan = XVal.negInf := by
  unfold dec_out_to_log_prob_row
  have hs : (scaleRow t r).any XVal.isNaN = true := by rw [scaleRow_any_isNaN]; exact h
  have hlen : i < (nanToNegInf (logSoftmaxRow lse (scaleRow t r))).length := by
    rw [nanToNegInf_length, logSoftmaxRow_length, scaleRow_length]
    exact hi
  rw [set2_getD _ _ _ _ hlen]
  unfold logSoftmaxRow
  rw [if_pos hs]
  split
  · rfl
  split
  · rfl
  unfold nanToNegInf
  have hlen2 : i < ((scaleRow t r).map (fun _ => XVal.nan)).length := by
    rw [List.length_map, scaleRow_length]
    exact hi
  rw [List.getD_eq_getElem _ _ (by simpa using hlen2), List.getElem_map,
    List.getElem_map]
  rfl

/-- Class characterization of `dec_out_to_log_prob` on rows free of
`NaN` and `+inf`: a position is `-inf` exactly when it is structurally
excluded (`pad`/`bos`) or the input there was `-inf`; every other
position is finite. -/
theorem dec_row_class (lse : List ℚ → ℚ) (t : ℚ) (pad bos : ℕ) (r : List XVal)
    (hn : r.any XVal.isNaN = false) (hp : r.any XVal.isPosInf = false)
    (i : ℕ) (hi : i < r.length) :
    ((i = pad ∨ i = bos ∨ (r.getD i XVal.nan).isNegInf = true) →
      (dec_out_to_log_prob_row lse t pad bos r).getD i XVal.nan = XVal.negInf) ∧
    (¬(i = pad ∨ i = bos) → (r.getD i XVal.nan).isFinite = true →
      ((dec_out_to_log_prob_row lse t pad bos r).getD i XVal.nan).isFinite = true) := by
  unfold dec_out_to_log_prob_row
  have hsn : (scaleRow t r).any XVal.isNaN = false := by rw [scaleRow_any_isNaN]; exact hn
  have hsp : (scaleRow t r).any XVal.isPosInf = false := by
    rw [scaleRow_any_isPosInf]; exact hp
  have hiS : i < (scaleRow t r).length := by rw [scaleRow_length]; exact hi
  have hlen : i < (nanToNegInf (logSoftmaxRow lse (scaleRow t r))).length := by
    rw [nanToNegInf_length, logSoftmaxRow_length, scaleRow_length]
    exact hi
  rw [set2_getD _ _ _ _ hlen]
  have hclassNeg : ((scaleRow t r).getD i XVal.nan).isNegInf =
      (r.getD i XVal.nan).isNegInf := by
    rw [scaleRow_getD t r i hi]
    split
    · rw [XVal.divQ_isNegInf]
    · rfl
  have hclassFin : ((scaleRow t r).getD i XVal.nan).isFinite =
      (r.getD i XVal.nan).isFinite := by
    rw [scaleRow_getD t r i hi]
    split
    · rw [XVal.divQ_isFinite]
    · rfl
  have hmap : ∀ (L : XVal),
      ((scaleRow t r).map (fun v => v.sub L)).getD i XVal.nan =
        ((scaleRow t r).getD i XVal.nan).sub L := by
    intro L
    rw [List.getD_eq_getElem _ _ (by simpa using hiS), List.getElem_map,
      List.getD_eq_getElem _ _ hiS]
  have hentry : (logSoftmaxRow lse (scaleRow t r)).getD i XVal.nan =
      ((scaleRow t r).getD i XVal.nan).sub
        (if (scaleRow t r).all XVal.isNegInf then XVal.negInf
         else XVal.fin (lse ((scaleRow t r).filterMap XVal.toQ))) := by
    unfold logSoftmaxRow
    rw [if_neg (by simp [hsn])]
    dsimp only
    rw [if_neg (by simp [hsp])]
    exact hmap _
  have hnanToNegInf : ∀ (l : List XVal), i < l.length →
      (nanToNegInf l).getD i XVal.nan =
        (if (l.getD i XVal.nan).isNaN then XVal.negInf else l.getD i XVal.nan) := by
    intro l hil
    unfold nanToNegInf
    rw [List.getD_eq_getElem _ _ (by simpa using hil), List.getElem_map,
      List.getD_eq_getElem _ _ hil]
  have hilsm : i < (logSoftmaxRow lse (scaleRow t r)).length := by
    rw [logSoftmaxRow_length]; exact hiS
  rw [hnanToNegInf _ hilsm, hentry]
  constructor
  · intro hcase
    split
    · rfl
    split
    · rfl
    rename_i hbq hpq
    rcases hcase with hcase | hcase | hcase
    · exact absurd hcase.symm hpq
    · exact absurd hcase.symm hbq
    · have hneg : ((scaleRow t r).getD i XVal.nan).isNegInf = true := by
        rw [hclassNeg]; exact hcase
      have hval : (scaleRow t r).getD i XVal.nan = XVal.negInf := by
        cases hv : (scaleRow t r).getD i XVal.nan <;> rw [hv] at hneg <;>
          first | rfl | simp [XVal.isNegInf] at hneg
      rw [hval]
      split
      · simp [XVal.sub, XVal.neg, XVal.add, XVal.isNaN]
      · simp [XVal.sub, XVal.neg, XVal.add, XVal.isNaN]
  · intro hne hfin
    rw [if_neg (fun habs => hne (Or.inr habs.symm)),
      if_neg (fun habs => hne (Or.inl habs.symm))]
    have hsfin : ((scaleRow t r).getD i XVal.nan).isFinite = true := by
      rw [hclassFin]; exact hfin
    obtain ⟨q, hq⟩ : ∃ q, (scaleRow t r).getD i XVal.nan = XVal.fin q := by
      cases hv : (scaleRow t r).getD i XVal.nan <;> rw [hv] at hsfin <;>
        first
          | exact ⟨_, rfl⟩
          | simp [XVal.isFinite] at hsfin
    have hnotall : ¬((scaleRow t r).all XVal.isNegInf = true) := by
      intro hall
      have hmem : XVal.fin q ∈ scaleRow t r := by
        rw [← hq, List.getD_eq_getElem _ _ hiS]
        exact List.getElem_mem hiS
      have := List.all_eq_true.1 hall _ hmem
      simp [XVal.isNegInf] at this
    rw [hq, if_neg hnotall]
    simp [XVal.sub, XVal.neg, XVal.add, XVal.isNaN, XVal.isFinite]

/-- The two structurally excluded positions of `dec_out_to_log_prob`
read `-inf` whatever the input row holds. -/
theorem dec_row_pad_bos (lse : List ℚ → ℚ) (t : ℚ) (pad bos : ℕ) (r : List XVal)
    (hpad : pad < r.length) (hbos : bos < r.length) :
    (dec_out_to_log_prob_row lse t pad bos r).getD pad XVal.nan = XVal.negInf ∧
    (dec_out_to_log_prob_row lse t pad bos r).getD bos XVal.nan = XVal.negInf := by
  unfold dec_out_to_log_prob_row
  have hlp : pad < (nanToNegInf (logSoftmaxRow lse (scaleRow t r))).length := by
    rw [nanToNegInf_length, logSoftmaxRow_length, scaleRow_length]; exact hpad
  have hlb : bos < (nanToNegInf (logSoftmaxRow lse (scaleRow t r))).length := by
    rw [nanToNegInf_length, logSoftmaxRow_length, scaleRow_length]; exact hbos
  constructor
  · rw [set2_getD _ _ _ _ hlp]
    by_cases h1 : bos = pad
    · rw [if_pos h1]
    · rw [if_neg h1, if_pos rfl]
  · rw [set2_getD _ _ _ _ hlb, if_pos rfl]

/-- Pointwise formula for `_log_prob` on one row: the `max_len` mask
wins at non-`eos` positions, then the `min_len` mask at `eos`, then the
`unk` penalty, then the plain `dec_out_to_log_prob` value. -/
theorem logProbRow_getD (lse : List ℚ → ℚ) (o : BeamSearchStrategy)
    (step max_len : ℕ) (r : List XVal) (i : ℕ) (hi : i < r.length) :
    (logProbRow lse o step max_len r).getD i XVal.nan =
      (if max_len ≤ step ∧ i ≠ o.vocab_info.eos_idx then XVal.negInf
       else if i = o.vocab_info.eos_idx ∧ step < o.min_len then XVal.negInf
       else if i = o.vocab_info.unk_idx then
         ((dec_out_to_log_prob_row lse o.temperature o.vocab_info.pad_idx
             o.vocab_info.bos_idx r).getD o.vocab_info.unk_idx XVal.negInf).sub
           (XVal.fin o.unk_penalty)
       else (dec_out_to_log_prob_row lse o.temperature o.vocab_info.pad_idx
         o.vocab_info.bos_idx r).getD i XVal.nan) := by
  unfold logProbRow
  have hA : i < (dec_out_to_log_prob_row lse o.temperature o.vocab_info.pad_idx
      o.vocab_info.bos_idx r).length := by
    rw [dec_row_length]; exact hi
  dsimp only
  set A := dec_out_to_log_prob_row lse o.temperature o.vocab_info.pad_idx
    o.vocab_info.bos_idx r with hAdef
  set B := A.set o.vocab_info.unk_idx
    ((A.getD o.vocab_info.unk_idx XVal.negInf).sub (XVal.fin o.unk_penalty)) with hBdef
  have hBlen : B.length = A.length := by rw [hBdef, List.length_set]
  have hBi : i < B.length := by rw [hBlen]; exact hA
  have hBg : ∀ j, j < A.length →
      B.getD j XVal.nan =
        (if j = o.vocab_info.unk_idx then
          (A.getD o.vocab_info.unk_idx XVal.negInf).sub (XVal.fin o.unk_penalty)
         else A.getD j XVal.nan) := by
    intro j hj
    by_cases hju : j = o.vocab_info.unk_idx
    · subst hju
      rw [if_pos rfl, hBdef]
      exact set_getD_self _ _ _ hj
    · rw [if_neg hju, hBdef]
      exact set_getD_ne _ _ _ _ hj (fun habs => hju habs.symm)
  set C := if step < o.min_len then B.set o.vocab_info.eos_idx XVal.negInf else B
    with hCdef
  have hClen : C.length = B.length := by
    rw [hCdef]
    split <;> simp
  have hCi : i < C.length := by rw [hClen]; exact hBi
  have hCg : ∀ j, j < B.length →
      C.getD j XVal.nan =
        (if j = o.vocab_info.eos_idx ∧ step < o.min_len then XVal.negInf
         else B.getD j XVal.nan) := by
    intro j hj
    rw [hCdef]
    by_cases hmin : step < o.min_len
    · rw [if_pos hmin]
      by_cases hje : j = o.vocab_info.eos_idx
      · subst hje
        rw [if_pos ⟨rfl, hmin⟩]
        exact set_getD_self _ _ _ hj
      · rw [if_neg (fun habs => hje habs.1)]
        exact set_getD_ne _ _ _ _ hj (fun habs => hje habs.symm)
    · rw [if_neg hmin, if_neg (fun habs => hmin habs.2)]
  by_cases hmax : max_len ≤ step
  · rw [if_pos hmax]
    rw [mapIdx_getD _ _ _ hCi]
    by_cases hie : i = o.vocab_info.eos_idx
    · rw [if_pos hie, if_neg (fun habs => habs.2 hie)]
      rw [hCg i hBi, hBg i hA]
    · rw [if_neg hie, if_pos ⟨hmax, hie⟩]
  · rw [if_neg hmax, if_neg (fun habs => hmax habs.1)]
    rw [hCg i hBi, hBg i hA]

theorem all_finite_no_special (r : List XVal) (h : r.all XVal.isFinite = true) :
    r.any XVal.isNaN = false ∧ r.any XVal.isPosInf = false := by
  constructor
  · rw [List.any_eq_false]
    intro x hx
    have := List.all_eq_true.1 h x hx
    cases x <;> simp [XVal.isFinite, XVal.isNaN] at this ⊢
  · rw [List.any_eq_false]
    intro x hx
    have := List.all_eq_true.1 h x hx
    cases x <;> simp [XVal.isFinite, XVal.isPosInf] at this ⊢

theorem map_getD_def {α β : Type} (dflt : α) (l : List α) (j : ℕ)
    (hj : j < l.length) {g : α → β} (d : β) :
    (l.map g).getD j d = g (l.getD j dflt) := by
  rw [List.getD_eq_getElem _ _ (by simpa using hj), List.getElem_map,
    List.getD_eq_getElem _ _ hj]

theorem flatCand_no_nan (bm : List (List XVal)) (v : ℕ)
    (hnn : ∀ row ∈ bm, ∀ x ∈ row, x.isNaN = false) (k : ℕ) :
    (flatCand bm v k).isNaN = false := by
  unfold flatCand
  by_cases hkb : k / v < bm.length
  · by_cases hrow : k % v < (bm.getD (k / v) []).length
    · have hmemrow : bm.getD (k / v) [] ∈ bm := by
        rw [List.getD_eq_getElem _ _ hkb]
        exact List.getElem_mem hkb
      have hmem : (bm.getD (k / v) []).getD (k % v) XVal.negInf ∈
          bm.getD (k / v) [] := by
        rw [List.getD_eq_getElem _ _ hrow]
        exact List.getElem_mem hrow
      exact hnn _ hmemrow _ hmem
    · rw [List.getD_eq_default _ _ (by omega)]
      rfl
  · rw [List.getD_eq_default _ _ (show bm.length ≤ k / v by omega)]
    cases k % v <;> rfl

/-- With the degenerate-first-steps slicing disabled
(`n_prefix_tokens < step`), `_choose_beams` is exactly top-k selection
over the flattened per-batch candidate pairs. -/
theorem choose_beams_eq (job : SearchJob) (ps : List (List (List XVal)))
    (hstep : job.n_prefix_tokens < job.step) :
    job._choose_beams ps =
      { scores := ps.map (fun r => (topSelect job.beam_size
          (idxPairs (r.length * ((ps.getD 0 []).getD 0 []).length)
            (flatCand r ((ps.getD 0 []).getD 0 []).length))).map (fun p => p.2))
        tokens := ps.map (fun r => (topSelect job.beam_size
          (idxPairs (r.length * ((ps.getD 0 []).getD 0 []).length)
            (flatCand r ((ps.getD 0 []).getD 0 []).length))).map
              (fun p => p.1 % ((ps.getD 0 []).getD 0 []).length))
        beams := ps.map (fun r => (topSelect job.beam_size
          (idxPairs (r.length * ((ps.getD 0 []).getD 0 []).length)
            (flatCand r ((ps.getD 0 []).getD 0 []).length))).map
              (fun p => p.1 / ((ps.getD 0 []).getD 0 []).length)) } := by
  unfold SearchJob._choose_beams
  rw [if_neg (show ¬(job.step ≤ job.n_prefix_tokens) by omega)]

theorem setRow_getD_self {α : Type} (l : List α) (i : ℕ) (v d : α)
    (hi : i < l.length) : (l.set i v).getD i d = v := by
  rw [List.getD_eq_getElem _ _ (by simpa using hi)]
  exact List.getElem_set_self _

theorem take1_getD {α : Type} (l : List α) (d : α) :
    (l.take 1).getD 0 d = l.getD 0 d := by
  cases l <;> rfl

/-- The sliced variant of `choose_beams_eq`: while
`step ≤ n_prefix_tokens`, `_choose_beams` works on the one-beam slices. -/
theorem choose_beams_eq_sliced (job : SearchJob) (ps : List (List (List XVal)))
    (hstep : job.step ≤ job.n_prefix_tokens) :
    job._choose_beams ps =
      { scores := (ps.map (fun bm => bm.take 1)).map (fun r => (topSelect job.beam_size
          (idxPairs (r.length * (((ps.map (fun bm => bm.take 1)).getD 0 []).getD 0 []).length)
            (flatCand r (((ps.map (fun bm => bm.take 1)).getD 0 []).getD 0 []).length))).map
              (fun p => p.2))
        tokens := (ps.map (fun bm => bm.take 1)).map (fun r => (topSelect job.beam_size
          (idxPairs (r.length * (((ps.map (fun bm => bm.take 1)).getD 0 []).getD 0 []).length)
            (flatCand r (((ps.map (fun bm => bm.take 1)).getD 0 []).getD 0 []).length))).map
              (fun p => p.1 % (((ps.map (fun bm => bm.take 1)).getD 0 []).getD 0 []).length))
        beams := (ps.map (fun bm => bm.take 1)).map (fun r => (topSelect job.beam_size
          (idxPairs (r.length * (((ps.map (fun bm => bm.take 1)).getD 0 []).getD 0 []).length)
            (flatCand r (((ps.map (fun bm => bm.take 1)).getD 0 []).getD 0 []).length))).map
              (fun p => p.1 / (((ps.map (fun bm => bm.take 1)).getD 0 []).getD 0 []).length)) } := by
  unfold SearchJob._choose_beams
  rw [if_pos hstep]

theorem logProbRow_length (lse : List ℚ → ℚ) (o : BeamSearchStrategy)
    (step max_len : ℕ) (r : List XVal) :
    (logProbRow lse o step max_len r).length = r.length := by
  unfold logProbRow
  dsimp only
  split <;> split <;>
    simp [List.length_set, List.length_mapIdx, dec_row_length]

theorem force_token_row_length (token : ℕ) (r : List XVal) :
    (force_token_row token r).length = r.length := by
  simp [force_token_row]

theorem padForcedRow_length (pad width : ℕ) : (padForcedRow pad width).length = width := by
  simp [padForcedRow]

/-- Row-index arithmetic for the flattened [batch * beam] view. -/
theorem flat_index_lt (batch beam b i : ℕ) (hb : b < batch) (hi : i < beam) :
    b * beam + i < batch * beam := by
  have h1 : b * beam + i < (b + 1) * beam := by
    rw [Nat.add_mul, Nat.one_mul]
    omega
  have h2 : (b + 1) * beam ≤ batch * beam := Nat.mul_le_mul_right _ (by omega)
  omega

/-- Every masked log-probability row that `update` works with has the
vocabulary width. -/
theorem stepLprobs_length (lse : List ℚ → ℚ) (job : SearchJob)
    (dec_out : List (List XVal)) (b i : ℕ)
    (hb : b < job.batch_size) (hi : i < job.beam_size)
    (hlen : dec_out.length = job.batch_size * job.beam_size)
    (hw : ∀ r ∈ dec_out, r.length = job.opts.vocab_info.size) :
    (job.stepLprobs lse dec_out b i).length = job.opts.vocab_info.size := by
  unfold SearchJob.stepLprobs SearchJob._log_prob
  have hidx : b * job.beam_size + i < dec_out.length := by
    rw [hlen]
    exact flat_index_lt _ _ _ _ hb hi
  have hrow : (dec_out.map (logProbRow lse job.opts (job.step + 1) job.max_len)).getD
      (b * job.beam_size + i) [] =
      logProbRow lse job.opts (job.step + 1) job.max_len
        (dec_out.getD (b * job.beam_size + i) []) :=
    map_getD_def [] dec_out _ hidx []
  have hwrow : (dec_out.getD (b * job.beam_size + i) []).length =
      job.opts.vocab_info.size := by
    apply hw
    rw [List.getD_eq_getElem _ _ hidx]
    exact List.getElem_mem hidx
  dsimp only
  rw [hrow]
  split
  · split
    · rw [padForcedRow_length]
      rw [force_token_row_length, logProbRow_length, hwrow]
    · rw [padForcedRow_length, logProbRow_length, hwrow]
  · split
    · rw [force_token_row_length, logProbRow_length, hwrow]
    · rw [logProbRow_length, hwrow]

/-- The candidate tensor built by `update`: batch entry `b` is the list
of this batch element's per-beam candidate rows. -/
theorem stepCand_getD (lse : List ℚ → ℚ) (job : SearchJob)
    (dec_out : List (List XVal)) (b : ℕ) (hb : b < job.batch_size) :
    (job.stepCand lse dec_out).getD b [] =
      (List.range job.beam_size).map (fun i =>
        (job.stepLprobs lse dec_out b i).map
          (fun x => (job.scoreAt b i job.step).add x)) := by
  unfold SearchJob.stepCand
  exact rangeMap_getD _ _ hb

theorem stepCand_length (lse : List ℚ → ℚ) (job : SearchJob)
    (dec_out : List (List XVal)) : (job.stepCand lse dec_out).length = job.batch_size := by
  simp [SearchJob.stepCand]

/-- Selection provenance for one accepted step: every selected
candidate's joint score is its source beam's running cumulative score
plus that beam's masked log-probability at the chosen token, and the
decoded source-beam and token indices are in range.  Holds both on the
degenerate early steps (where the selector works on the first beam's
slice, so the source beam is 0) and on regular steps. -/
theorem stepSel_provenance (lse : List ℚ → ℚ) (job : SearchJob)
    (dec_out : List (List XVal)) (b j : ℕ)
    (hb : b < job.batch_size) (hj : j < job.beam_size)
    (hlen : dec_out.length = job.batch_size * job.beam_size)
    (hw : ∀ r ∈ dec_out, r.length = job.opts.vocab_info.size)
    (hbv : job.beam_size ≤ job.opts.vocab_info.size) :
    (job.stepSel lse dec_out).beamAt b j < job.beam_size ∧
    (job.stepSel lse dec_out).tokenAt b j < job.opts.vocab_info.size ∧
    (job.stepSel lse dec_out).scoreAt b j =
      (job.scoreAt b ((job.stepSel lse dec_out).beamAt b j) job.step).add
        ((job.stepLprobs lse dec_out b ((job.stepSel lse dec_out).beamAt b j)).getD
          ((job.stepSel lse dec_out).tokenAt b j) XVal.negInf) := by
  have hS0 : 0 < job.opts.vocab_info.size := lt_of_le_of_lt (Nat.zero_le j) (lt_of_lt_of_le hj hbv)
  have hb0 : 0 < job.batch_size := lt_of_le_of_lt (Nat.zero_le b) hb
  have hj0 : 0 < job.beam_size := lt_of_le_of_lt (Nat.zero_le j) hj
  have hv00 : (((job.stepCand lse dec_out).getD 0 []).getD 0 []).length =
      job.opts.vocab_info.size := by
    rw [stepCand_getD lse job dec_out 0 hb0, rangeMap_getD _ _ hj0, List.length_map,
      stepLprobs_length lse job dec_out 0 0 hb0 hj0 hlen hw]
  have hrowlen : ∀ i, i < job.beam_size →
      (((job.stepCand lse dec_out).getD b []).getD i []).length =
        job.opts.vocab_info.size := by
    intro i hi
    rw [stepCand_getD lse job dec_out b hb, rangeMap_getD _ _ hi, List.length_map,
      stepLprobs_length lse job dec_out b i hb hi hlen hw]
  have hcandrow : ∀ i, i < job.beam_size →
      ((job.stepCand lse dec_out).getD b []).getD i [] =
        (job.stepLprobs lse dec_out b i).map
          (fun x => (job.scoreAt b i job.step).add x) := by
    intro i hi
    rw [stepCand_getD lse job dec_out b hb, rangeMap_getD _ _ hi]
  unfold SearchJob.stepSel
  by_cases hsl : job.step + 1 ≤ job.n_prefix_tokens
  · -- degenerate early step: the selector slices to the first input beam
    rw [choose_beams_eq_sliced { job with step := job.step + 1 }
      (job.stepCand lse dec_out) (by dsimp only; exact hsl)]
    dsimp only [SelectionResult.beamAt, SelectionResult.tokenAt,
      SelectionResult.scoreAt]
    have hb2 : b < ((job.stepCand lse dec_out).map (fun bm => bm.take 1)).length := by
      rw [List.length_map, stepCand_length]
      exact hb
    have h02 : (0 : ℕ) < ((job.stepCand lse dec_out).map (fun bm => bm.take 1)).length := by
      rw [List.length_map, stepCand_length]
      exact hb0
    have hps0 : ((job.stepCand lse dec_out).map (fun bm => bm.take 1)).getD 0 [] =
        ((job.stepCand lse dec_out).getD 0 []).take 1 :=
      map_getD_def [] _ 0 (by rw [stepCand_length]; exact hb0) []
    have hvv : ((((job.stepCand lse dec_out).map (fun bm => bm.take 1)).getD 0
        []).getD 0 []).length = job.opts.vocab_info.size := by
      rw [hps0, take1_getD, hv00]
    rw [map_getD_def ([] : List (List XVal)) _ b hb2 ([] : List XVal),
      map_getD_def ([] : List (List XVal)) _ b hb2 ([] : List ℕ),
      map_getD_def ([] : List (List XVal)) _ b hb2 ([] : List ℕ)]
    have hpsb : ((job.stepCand lse dec_out).map (fun bm => bm.take 1)).getD b [] =
        ((job.stepCand lse dec_out).getD b []).take 1 :=
      map_getD_def [] _ b (by rw [stepCand_length]; exact hb) []
    rw [hpsb, hvv]
    have hbmlen : (((job.stepCand lse dec_out).getD b []).take 1).length = 1 := by
      rw [List.length_take]
      have : ((job.stepCand lse dec_out).getD b []).length = job.beam_size := by
        rw [stepCand_getD lse job dec_out b hb]
        simp
      rw [this]
      omega
    rw [hbmlen, Nat.one_mul]
    set S := job.opts.vocab_info.size with hSd
    set bm := ((job.stepCand lse dec_out).getD b []).take 1 with hbmd
    set P := topSelect job.beam_size (idxPairs S (flatCand bm S)) with hPd
    have hPlen : P.length = job.beam_size := by
      rw [hPd]
      exact tpk_length _ hbv
    have hjP : j < P.length := by rw [hPlen]; exact hj
    have hshape : (P.getD j (0, XVal.negInf)).1 < S ∧
        (P.getD j (0, XVal.negInf)).2 = flatCand bm S (P.getD j (0, XVal.negInf)).1 := by
      rw [hPd]
      exact tpk_getD_shape _ (by rw [← hPd]; exact hjP)
    rw [map_getD_def (0, XVal.negInf) P j hjP 0,
      map_getD_def (0, XVal.negInf) P j hjP 0,
      map_getD_def (0, XVal.negInf) P j hjP XVal.negInf]
    have hdiv : (P.getD j (0, XVal.negInf)).1 / S = 0 :=
      Nat.div_eq_of_lt hshape.1
    have hmod : (P.getD j (0, XVal.negInf)).1 % S = (P.getD j (0, XVal.negInf)).1 :=
      Nat.mod_eq_of_lt hshape.1
    refine ⟨by rw [hdiv]; exact hj0, by rw [hmod]; exact hshape.1, ?_⟩
    rw [hshape.2, hdiv, hmod]
    unfold flatCand
    rw [hdiv, hmod, hbmd, take1_getD, hcandrow 0 hj0]
    exact map_getD_def XVal.negInf _ _ (by
      rw [stepLprobs_length lse job dec_out b 0 hb hj0 hlen hw]
      exact hshape.1) XVal.negInf
  · -- regular step: full beam set
    rw [choose_beams_eq { job with step := job.step + 1 }
      (job.stepCand lse dec_out) (by dsimp only; omega)]
    dsimp only [SelectionResult.beamAt, SelectionResult.tokenAt,
      SelectionResult.scoreAt]
    have hb2 : b < (job.stepCand lse dec_out).length := by
      rw [stepCand_length]
      exact hb
    rw [map_getD_def ([] : List (List XVal)) _ b hb2 ([] : List XVal),
      map_getD_def ([] : List (List XVal)) _ b hb2 ([] : List ℕ),
      map_getD_def ([] : List (List XVal)) _ b hb2 ([] : List ℕ)]
    rw [hv00]
    have hbmlen : ((job.stepCand lse dec_out).getD b []).length = job.beam_size := by
      rw [stepCand_getD lse job dec_out b hb]
      simp
    rw [hbmlen]
    set S := job.opts.vocab_info.size with hSd
    set bm := (job.stepCand lse dec_out).getD b [] with hbmd
    set P := topSelect job.beam_size (idxPairs (job.beam_size * S) (flatCand bm S))
      with hPd
    have hk : job.beam_size ≤ job.beam_size * S :=
      Nat.le_mul_of_pos_right _ hS0
    have hPlen : P.length = job.beam_size := by
      rw [hPd]
      exact tpk_length _ hk
    have hjP : j < P.length := by rw [hPlen]; exact hj
    have hshape : (P.getD j (0, XVal.negInf)).1 < job.beam_size * S ∧
        (P.getD j (0, XVal.negInf)).2 = flatCand bm S (P.getD j (0, XVal.negInf)).1 := by
      rw [hPd]
      exact tpk_getD_shape _ (by rw [← hPd]; exact hjP)
    rw [map_getD_def (0, XVal.negInf) P j hjP 0,
      map_getD_def (0, XVal.negInf) P j hjP 0,
      map_getD_def (0, XVal.negInf) P j hjP XVal.negInf]
    have hsrc : (P.getD j (0, XVal.negInf)).1 / S < job.beam_size := by
      rw [Nat.div_lt_iff_lt_mul hS0]
      exact hshape.1
    refine ⟨hsrc, Nat.mod_lt _ hS0, ?_⟩
    rw [hshape.2]
    unfold flatCand
    rw [hcandrow _ hsrc]
    exact map_getD_def XVal.negInf _ _ (by
      rw [stepLprobs_length lse job dec_out b _ hb hsrc hlen hw]
      exact Nat.mod_lt _ hS0) XVal.negInf

/-- An accepted `update` is `stepCore`. -/
theorem update_ok (lse : List ℚ → ℚ) (job : SearchJob)
    (dec_out : List (List XVal)) (hdone : job.done = false)
    (hlen : dec_out.length = job.batch_size * job.beam_size) :
    job.update lse dec_out = .ok (job.stepCore lse dec_out) := by
  unfold SearchJob.update
  rw [if_neg (by simp [hdone]), if_pos hlen]

theorem stepCore_tokRow_eq (lse : List ℚ → ℚ) (job : SearchJob)
    (dec_out : List (List XVal)) (b j : ℕ)
    (hb : b < job.batch_size) (hj : j < job.beam_size) :
    (job.stepCore lse dec_out).tokRow b j = job.stepTokRow lse dec_out b j := by
  unfold SearchJob.stepCore SearchJob.tokRow
  dsimp only
  rw [rangeMap_getD _ _ hb, rangeMap_getD _ _ hj]

theorem stepCore_scoreRow_eq (lse : List ℚ → ℚ) (job : SearchJob)
    (dec_out : List (List XVal)) (b j : ℕ)
    (hb : b < job.batch_size) (hj : j < job.beam_size) :
    (job.stepCore lse dec_out).scoreRow b j = job.stepScoreRow lse dec_out b j := by
  unfold SearchJob.stepCore SearchJob.scoreRow
  dsimp only
  rw [rangeMap_getD _ _ hb, rangeMap_getD _ _ hj]

theorem stepCore_finishedAt_eq (lse : List ℚ → ℚ) (job : SearchJob)
    (dec_out : List (List XVal)) (b j : ℕ)
    (hb : b < job.batch_size) (hj : j < job.beam_size) :
    (job.stepCore lse dec_out).finishedAt b j = job.stepMask lse dec_out b j := by
  unfold SearchJob.stepCore SearchJob.finishedAt
  dsimp only
  rw [rangeMap_getD _ _ hb, rangeMap_getD _ _ hj]

/-! ### Concrete data shared by witnesses and counterexamples.
The vocabulary, strategy and source tokens of `test_prepare_state_noprefix`. -/

def cexVocab : VocabularyInfo :=
  { size := 8, bos_idx := 0, eos_idx := 1, unk_idx := 2, pad_idx := 3 }

def cexOpts : BeamSearchStrategy :=
  { vocab_info := cexVocab, max_len := 100, beam_size := 3 }

def cexSrc : List (List ℕ) := [[1, 2, 3, 4], [7, 8, 9, 10]]

def cexJob : SearchJob := okD (cexOpts.new_search_job cexSrc .none)

/-! ### The claims -/

/-- C8: calling `update` on a job whose `done` flag is set fails with a
precondition-violation error ("done == True", the assertion text pinned
by `test_step_done`) instead of advancing the state, for every input
logits tensor. -/
theorem claim_C8_update_after_done_fails (lse : List ℚ → ℚ) (job : SearchJob)
    (dec_out : List (List XVal)) (h : job.done = true) :
    job.update lse dec_out = .error "cannot update a finished job: done == True" := by
  simp [SearchJob.update, h]

theorem claim_C8_witness :
    SearchJob.update maxQ { emptyJob with done := true } [] =
      .error "cannot update a finished job: done == True" :=
  claim_C8_update_after_done_fails maxQ { emptyJob with done := true } [] rfl

/-- C1 (amended): for every job created by `new_search_job`, the derived
`max_len` equals `min(configured_max_len, 2 * source_len + 10)`, the
prefix is strictly shorter than `max_len`, and the time capacity of the
`tokens` and `scores` tensors (their third dimension) equals
`max_len + 2`.  The claim's capacity `max_len + n_prefix_tokens` is
refuted by `claim_C1_cex`, matching `test_prepare_state_noprefix`, which
pins capacity 20 for `max_len = 18` with a 1-token prefix. -/
theorem claim_C1_capacity (o : BeamSearchStrategy) (src : List (List ℕ))
    (p : PrefixSpec) (job : SearchJob)
    (h : o.new_search_job src p = .ok job) :
    job.max_len = min o.max_len (2 * (src.getD 0 []).length + 10) ∧
    job.n_prefix_tokens < job.max_len ∧
    ∀ b i, b < job.batch_size → i < job.beam_size →
      (job.tokRow b i).length = job.max_len + 2 ∧
      (job.scoreRow b i).length = job.max_len + 2 := by
  simp only [BeamSearchStrategy.new_search_job] at h
  split at h
  · exact absurd h (by simp)
  split at h
  · exact absurd h (by simp)
  split at h
  · exact absurd h (by simp)
  rename_i hpre
  simp only [Except.ok.injEq] at h
  subst h
  refine ⟨rfl, ?_, ?_⟩
  · dsimp only
    omega
  · intro b i hb hi
    dsimp only at hb hi ⊢
    constructor
    · unfold SearchJob.tokRow
      dsimp only
      rw [rangeMap_getD _ _ hb, rangeMap_getD _ _ hi]
      simp
    · unfold SearchJob.scoreRow
      dsimp only
      rw [rangeMap_getD _ _ hb, rangeMap_getD _ _ hi]
      simp

theorem claim_C1_witness :
    cexJob.max_len = min cexOpts.max_len (2 * (cexSrc.getD 0 []).length + 10) ∧
    cexJob.n_prefix_tokens < cexJob.max_len ∧
    ∀ b i, b < cexJob.batch_size → i < cexJob.beam_size →
      (cexJob.tokRow b i).length = cexJob.max_len + 2 ∧
      (cexJob.scoreRow b i).length = cexJob.max_len + 2 :=
  claim_C1_capacity cexOpts cexSrc .none cexJob rfl

/-- C1 counterexample: the job of `test_prepare_state_noprefix`
(`max_len` 100 capped to 18, beam 3, default 1-token prefix) has time
capacity 20, while the claim's `max_len + n_prefix_tokens` is 19. -/
theorem claim_C1_cex :
    cexJob.max_len = 18 ∧ cexJob.n_prefix_tokens = 1 ∧
    (cexJob.tokRow 0 0).length = 20 ∧ (cexJob.scoreRow 0 0).length = 20 ∧
    (cexJob.tokRow 0 0).length ≠ cexJob.max_len + cexJob.n_prefix_tokens := by
  refine ⟨rfl, rfl, rfl, rfl, by decide⟩

/-- C2 (amended): `finalize` with `top = None` returns all `beam_size`
hypotheses of every batch element, each row unchanged — the full buffer
rows, not a truncation to `step + 1` time positions.  The claim's
truncation is refuted by `claim_C2_cex`, matching `test_finalize_notop`,
which compares the result against the full 12-wide rows. -/
theorem claim_C2_finalize_notop (job : SearchJob)
    (hb : job.tokens.length = job.batch_size)
    (hs : job.scores.length = job.batch_size)
    (hbi : ∀ b, b < job.batch_size → (job.tokens.getD b []).length = job.beam_size)
    (hsi : ∀ b, b < job.batch_size → (job.scores.getD b []).length = job.beam_size) :
    (job.finalize .none).tokens = job.tokens ∧
    (job.finalize .none).scores = job.scores ∧
    ∀ b, b < job.batch_size →
      ((job.finalize .none).tokens.getD b []).length = job.beam_size := by
  have ht : (job.finalize .none).tokens = job.tokens :=
    rangeMap_reconstruct job.tokens job.batch_size job.beam_size [] hb hbi
  have hsc : (job.finalize .none).scores = job.scores :=
    rangeMap_reconstruct job.scores job.batch_size job.beam_size [] hs hsi
  refine ⟨ht, hsc, ?_⟩
  intro b hbb
  rw [ht]
  exact hbi b hbb

theorem claim_C2_witness :
    ((cexJob.finalize .none).tokens = cexJob.tokens ∧
     (cexJob.finalize .none).scores = cexJob.scores ∧
     ∀ b, b < cexJob.batch_size →
       ((cexJob.finalize .none).tokens.getD b []).length = cexJob.beam_size) :=
  claim_C2_finalize_notop cexJob rfl rfl
    (by
      intro b hb
      have hb2 : b < 2 := hb
      interval_cases b <;> rfl)
    (by
      intro b hb
      have hb2 : b < 2 := hb
      interval_cases b <;> rfl)

/-- C2 counterexample: on the fresh job of `test_finalize_notop`-style
shape (`step = 0`), `finalize(top=None)` keeps full 20-wide rows, not
`step + 1 = 1` positions. -/
theorem claim_C2_cex :
    cexJob.step = 0 ∧
    (((cexJob.finalize .none).tokens.getD 0 []).getD 0 []).length = 20 ∧
    (((cexJob.finalize .none).tokens.getD 0 []).getD 0 []).length ≠ cexJob.step + 1 := by
  refine ⟨rfl, rfl, by decide⟩

/-- C9: for every `dec_out_to_log_prob` input row containing a `NaN`,
the output row is `-inf` at every position — in particular at every
non-special token.  The poisoned row is not rejected (the transform is
total) but propagated deterministically, and a `-inf` entry can never
outrank a finite candidate under the selection order, so such a row can
never win beam selection. -/
theorem claim_C9_nan_row_poisoned (lse : List ℚ → ℚ) (t : ℚ) (pad bos : ℕ)
    (r : List XVal) (h : r.any XVal.isNaN = true) :
    (dec_out_to_log_prob_row lse t pad bos r).length = r.length ∧
    (∀ i, i < r.length →
      (dec_out_to_log_prob_row lse t pad bos r).getD i XVal.nan = XVal.negInf) ∧
    (∀ (q : ℚ) (m k : ℕ), selLE (m, XVal.fin q) (k, XVal.negInf)) := by
  refine ⟨dec_row_length lse t pad bos r,
    fun i hi => dec_row_nan_all_neg_inf lse t pad bos r h i hi, ?_⟩
  intro q m k
  exact Or.inl ((Prod.Lex.lt_iff _ _).2 (Or.inl (by norm_num)))

theorem claim_C9_witness :
    (dec_out_to_log_prob_row maxQ 0 0 1 [XVal.fin 0, XVal.fin 1, XVal.nan]).getD 2
        XVal.nan = XVal.negInf ∧
    selLE (5, XVal.fin 7) (0, XVal.negInf) :=
  ⟨(claim_C9_nan_row_poisoned maxQ 0 0 1 [XVal.fin 0, XVal.fin 1, XVal.nan]
      (by decide)).2.1 2 (by decide),
   (claim_C9_nan_row_poisoned maxQ 0 0 1 [XVal.fin 0, XVal.fin 1, XVal.nan]
      (by decide)).2.2 7 5 0⟩

/-- C10: for every `dec_out_to_log_prob` input row containing `-inf`
entries but no `NaN` and no `+inf`, the row is not poisoned: the output
is `-inf` exactly at those entries and at the `pad` and `bos` positions,
and finite at every other token. -/
theorem claim_C10_neg_inf_localized (lse : List ℚ → ℚ) (t : ℚ) (pad bos : ℕ)
    (r : List XVal) (hn : r.any XVal.isNaN = false)
    (hp : r.any XVal.isPosInf = false) :
    ∀ i, i < r.length →
      ((dec_out_to_log_prob_row lse t pad bos r).getD i XVal.nan = XVal.negInf ↔
        (i = pad ∨ i = bos ∨ r.getD i XVal.nan = XVal.negInf)) ∧
      ((dec_out_to_log_prob_row lse t pad bos r).getD i XVal.nan = XVal.negInf ∨
        ((dec_out_to_log_prob_row lse t pad bos r).getD i XVal.nan).isFinite = true) := by
  intro i hi
  have hclass := dec_row_class lse t pad bos r hn hp i hi
  have hentryclass : (r.getD i XVal.nan).isNegInf = true ∨
      (r.getD i XVal.nan).isFinite = true := by
    have hmem : r.getD i XVal.nan ∈ r := by
      rw [List.getD_eq_getElem _ _ hi]
      exact List.getElem_mem hi
    have h1 := List.any_eq_false.1 hn _ hmem
    have h2 := List.any_eq_false.1 hp _ hmem
    cases hv : r.getD i XVal.nan <;> rw [hv] at h1 h2 <;>
      simp [XVal.isNaN, XVal.isPosInf, XVal.isNegInf, XVal.isFinite] at h1 h2 ⊢
  have hneg_iff : (r.getD i XVal.nan).isNegInf = true ↔
      r.getD i XVal.nan = XVal.negInf := by
    cases hv : r.getD i XVal.nan <;> simp [XVal.isNegInf]
  constructor
  · constructor
    · intro hout
      by_contra hcontra
      push_neg at hcontra
      obtain ⟨hip, hib, hniv⟩ := hcontra
      have hfin : (r.getD i XVal.nan).isFinite = true := by
        rcases hentryclass with hcase | hcase
        · exact absurd (hneg_iff.1 hcase) hniv
        · exact hcase
      have := hclass.2 (by rintro (hc | hc) <;> [exact hip hc; exact hib hc]) hfin
      rw [hout] at this
      simp [XVal.isFinite] at this
    · intro hcase
      exact hclass.1 (by
        rcases hcase with hc | hc | hc
        · exact Or.inl hc
        · exact Or.inr (Or.inl hc)
        · exact Or.inr (Or.inr (hneg_iff.2 hc)))
  · by_cases hsp : i = pad ∨ i = bos
    · exact Or.inl (hclass.1 (by
        rcases hsp with hc | hc
        · exact Or.inl hc
        · exact Or.inr (Or.inl hc)))
    · rcases hentryclass with hcase | hcase
      · exact Or.inl (hclass.1 (Or.inr (Or.inr hcase)))
      · exact Or.inr (hclass.2 hsp hcase)

theorem claim_C10_witness :
    ((dec_out_to_log_prob_row maxQ 1 0 1 [XVal.fin 0, XVal.fin 0, XVal.fin 1,
        XVal.negInf]).getD 3 XVal.nan = XVal.negInf ↔
      ((3 : ℕ) = 0 ∨ (3 : ℕ) = 1 ∨
        ([XVal.fin 0, XVal.fin 0, XVal.fin 1, XVal.negInf].getD 3 XVal.nan =
          XVal.negInf))) ∧
    ((dec_out_to_log_prob_row maxQ 1 0 1 [XVal.fin 0, XVal.fin 0, XVal.fin 1,
        XVal.negInf]).getD 2 XVal.nan = XVal.negInf ∨
      ((dec_out_to_log_prob_row maxQ 1 0 1 [XVal.fin 0, XVal.fin 0, XVal.fin 1,
        XVal.negInf]).getD 2 XVal.nan).isFinite = true) :=
  ⟨(claim_C10_neg_inf_localized maxQ 1 0 1
      [XVal.fin 0, XVal.fin 0, XVal.fin 1, XVal.negInf] (by decide) (by decide) 3
      (by decide)).1,
   (claim_C10_neg_inf_localized maxQ 1 0 1
      [XVal.fin 0, XVal.fin 0, XVal.fin 1, XVal.negInf] (by decide) (by decide) 2
      (by decide)).2⟩

/-- C5: for every input row, `_log_prob` assigns `-inf` to the `pad` and
`bos` log-probabilities unconditionally; assigns `-inf` to `eos` when
`step < min_len`; assigns `-inf` to every non-`eos` token when
`step ≥ max_len`; always subtracts `unk_penalty` from the `unk` token's
log-probability (visible as `raw - unk_penalty` whenever the `max_len`
mask has not overwritten the position; under the mask the position is
`-inf`, which also equals `-inf - unk_penalty`).  For
`min_len < step < max_len` with finite inputs, `eos` and every ordinary
token keep finite log-probabilities. -/
theorem claim_C5_log_prob_masking (lse : List ℚ → ℚ) (o : BeamSearchStrategy)
    (step max_len : ℕ) (r : List XVal)
    (hpad : o.vocab_info.pad_idx < r.length)
    (hbos : o.vocab_info.bos_idx < r.length)
    (heos : o.vocab_info.eos_idx < r.length)
    (hunk : o.vocab_info.unk_idx < r.length) :
    ((logProbRow lse o step max_len r).getD o.vocab_info.pad_idx XVal.nan =
      XVal.negInf) ∧
    ((logProbRow lse o step max_len r).getD o.vocab_info.bos_idx XVal.nan =
      XVal.negInf) ∧
    (step < o.min_len →
      (logProbRow lse o step max_len r).getD o.vocab_info.eos_idx XVal.nan =
        XVal.negInf) ∧
    (max_len ≤ step → ∀ i, i < r.length → i ≠ o.vocab_info.eos_idx →
      (logProbRow lse o step max_len r).getD i XVal.nan = XVal.negInf) ∧
    (step < max_len → o.vocab_info.unk_idx ≠ o.vocab_info.eos_idx →
      (logProbRow lse o step max_len r).getD o.vocab_info.unk_idx XVal.nan =
        ((dec_out_to_log_prob_row lse o.temperature o.vocab_info.pad_idx
            o.vocab_info.bos_idx r).getD o.vocab_info.unk_idx XVal.negInf).sub
          (XVal.fin o.unk_penalty)) ∧
    (o.min_len < step → step < max_len → r.all XVal.isFinite = true →
      ∀ i, i < r.length → i ≠ o.vocab_info.pad_idx → i ≠ o.vocab_info.bos_idx →
        ((logProbRow lse o step max_len r).getD i XVal.nan).isFinite = true) := by
  have hApad := (dec_row_pad_bos lse o.temperature o.vocab_info.pad_idx
    o.vocab_info.bos_idx r hpad hbos).1
  have hAbos := (dec_row_pad_bos lse o.temperature o.vocab_info.pad_idx
    o.vocab_info.bos_idx r hpad hbos).2
  have hdefault : ∀ j, j < r.length →
      (dec_out_to_log_prob_row lse o.temperature o.vocab_info.pad_idx
        o.vocab_info.bos_idx r).getD j XVal.negInf =
      (dec_out_to_log_prob_row lse o.temperature o.vocab_info.pad_idx
        o.vocab_info.bos_idx r).getD j XVal.nan := by
    intro j hj
    have hjl : j < (dec_out_to_log_prob_row lse o.temperature o.vocab_info.pad_idx
        o.vocab_info.bos_idx r).length := by
      rw [dec_row_length]; exact hj
    rw [List.getD_eq_getElem _ _ hjl, List.getD_eq_getElem _ _ hjl]
  refine ⟨?_, ?_, ?_, ?_, ?_, ?_⟩
  · rw [logProbRow_getD lse o step max_len r _ hpad]
    split
    · rfl
    split
    · rfl
    split
    · rename_i hpu
      rw [← hpu, hdefault _ hpad, hApad]
      rfl
    · exact hApad
  · rw [logProbRow_getD lse o step max_len r _ hbos]
    split
    · rfl
    split
    · rfl
    split
    · rename_i hbu
      rw [← hbu, hdefault _ hbos, hAbos]
      rfl
    · exact hAbos
  · intro hmin
    rw [logProbRow_getD lse o step max_len r _ heos]
    rw [if_neg (fun habs => habs.2 rfl), if_pos ⟨rfl, hmin⟩]
  · intro hmax i hi hie
    rw [logProbRow_getD lse o step max_len r _ hi, if_pos ⟨hmax, hie⟩]
  · intro hmax hue
    rw [logProbRow_getD lse o step max_len r _ hunk,
      if_neg (fun habs => Nat.lt_irrefl step (Nat.lt_of_lt_of_le hmax habs.1)),
      if_neg (fun habs => hue habs.1), if_pos rfl]
  · intro hminlt hmaxlt hfin i hi hip hib
    obtain ⟨hnn, hnp⟩ := all_finite_no_special r hfin
    have hifin : (r.getD i XVal.nan).isFinite = true := by
      have hmem : r.getD i XVal.nan ∈ r := by
        rw [List.getD_eq_getElem _ _ hi]
        exact List.getElem_mem hi
      exact List.all_eq_true.1 hfin _ hmem
    have hclass := dec_row_class lse o.temperature o.vocab_info.pad_idx
      o.vocab_info.bos_idx r hnn hnp i hi
    have hAi : ((dec_out_to_log_prob_row lse o.temperature o.vocab_info.pad_idx
        o.vocab_info.bos_idx r).getD i XVal.nan).isFinite = true :=
      hclass.2 (by rintro (hc | hc) <;> [exact hip hc; exact hib hc]) hifin
    rw [logProbRow_getD lse o step max_len r _ hi,
      if_neg (fun habs => Nat.lt_irrefl step (Nat.lt_of_lt_of_le hmaxlt habs.1)),
      if_neg (fun habs => Nat.lt_irrefl step (Nat.lt_trans habs.2 hminlt))]
    split
    · rename_i hiu
      rw [← hiu, hdefault _ hi]
      cases hv : (dec_out_to_log_prob_row lse o.temperature o.vocab_info.pad_idx
          o.vocab_info.bos_idx r).getD i XVal.nan <;> rw [hv] at hAi <;>
        simp [XVal.isFinite, XVal.sub, XVal.neg, XVal.add] at hAi ⊢
    · exact hAi

theorem claim_C5_witness :
    ((logProbRow maxQ { vocab_info := cexVocab, min_len := 2, max_len := 20 } 3 10
        [XVal.fin 0, XVal.fin 1, XVal.fin 2, XVal.fin 3, XVal.fin 4]).getD 3
        XVal.nan = XVal.negInf) ∧
    ((logProbRow maxQ { vocab_info := cexVocab, min_len := 2, max_len := 20 } 3 10
        [XVal.fin 0, XVal.fin 1, XVal.fin 2, XVal.fin 3, XVal.fin 4]).getD 2
        XVal.nan =
      ((dec_out_to_log_prob_row maxQ (1/10) 3 0
          [XVal.fin 0, XVal.fin 1, XVal.fin 2, XVal.fin 3, XVal.fin 4]).getD 2
          XVal.negInf).sub (XVal.fin 1)) ∧
    (((logProbRow maxQ { vocab_info := cexVocab, min_len := 2, max_len := 20 } 3 10
        [XVal.fin 0, XVal.fin 1, XVal.fin 2, XVal.fin 3, XVal.fin 4]).getD 1
        XVal.nan).isFinite = true) :=
  ⟨(claim_C5_log_prob_masking maxQ
      { vocab_info := cexVocab, min_len := 2, max_len := 20 } 3 10
      [XVal.fin 0, XVal.fin 1, XVal.fin 2, XVal.fin 3, XVal.fin 4]
      (by decide) (by decide) (by decide) (by decide)).1,
   (claim_C5_log_prob_masking maxQ
      { vocab_info := cexVocab, min_len := 2, max_len := 20 } 3 10
      [XVal.fin 0, XVal.fin 1, XVal.fin 2, XVal.fin 3, XVal.fin 4]
      (by decide) (by decide) (by decide) (by decide)).2.2.2.2.1
      (by decide) (by decide),
   (claim_C5_log_prob_masking maxQ
      { vocab_info := cexVocab, min_len := 2, max_len := 20 } 3 10
      [XVal.fin 0, XVal.fin 1, XVal.fin 2, XVal.fin 3, XVal.fin 4]
      (by decide) (by decide) (by decide) (by decide)).2.2.2.2.2
      (by decide) (by decide) (by decide) 1 (by decide) (by decide) (by decide)⟩

/-- The strategy and inputs of `test_choose_beams` (vocab 8 with
`unk 0, bos 1, eos 2, pad 3`, `min_len 10`, `max_len 20`, beam 2). -/
def c6opts : BeamSearchStrategy :=
  { vocab_info := { size := 8, bos_idx := 1, eos_idx := 2, unk_idx := 0, pad_idx := 3 }
    min_len := 10, max_len := 20, beam_size := 2 }

def c6job : SearchJob := okD (c6opts.new_search_job cexSrc .none)

def c6ps : List (List (List XVal)) :=
  [[[XVal.fin 4, XVal.fin 0, XVal.fin 0, XVal.fin 0],
    [XVal.fin 0, XVal.fin 0, XVal.fin 3, XVal.fin 0]]]

/-- C6: the beam selector flattens the (input_beam x vocab) candidate
space per batch element; it returns exactly `beam_size` entries whose
values come from the flattened space at the decoded index (source beam
`k / vocab`, token `k % vocab`), ordered by value descending with ties
broken by flattened index ascending, and every unselected candidate is
beaten by (or tied at a larger index than) every selected one; in
particular, on the batch element `[[4,0,0,0],[0,0,3,0]]` of
`test_choose_beams` it returns scores `[4,3]`, tokens `[0,2]`, source
beams `[0,1]`. -/
theorem claim_C6_beam_selector (job : SearchJob) (ps : List (List (List XVal)))
    (b v : ℕ) (hstep : job.n_prefix_tokens < job.step) (hb : b < ps.length)
    (hveq : v = ((ps.getD 0 []).getD 0 []).length)
    (hk : job.beam_size ≤ (ps.getD b []).length * v)
    (hnn : ∀ row ∈ ps.getD b [], ∀ x ∈ row, x.isNaN = false) :
    (((job._choose_beams ps).scores.getD b []).length = job.beam_size ∧
     ((job._choose_beams ps).tokens.getD b []).length = job.beam_size ∧
     ((job._choose_beams ps).beams.getD b []).length = job.beam_size) ∧
    (∀ j, j < job.beam_size →
      (job._choose_beams ps).tokenAt b j < v ∧
      (job._choose_beams ps).beamAt b j < (ps.getD b []).length ∧
      (job._choose_beams ps).scoreAt b j =
        ((ps.getD b []).getD ((job._choose_beams ps).beamAt b j) []).getD
          ((job._choose_beams ps).tokenAt b j) XVal.negInf) ∧
    (∀ j1 j2, j1 < j2 → j2 < job.beam_size →
      XVal.ltb ((job._choose_beams ps).scoreAt b j2)
          ((job._choose_beams ps).scoreAt b j1) = true ∨
      ((job._choose_beams ps).scoreAt b j1 = (job._choose_beams ps).scoreAt b j2 ∧
       (job._choose_beams ps).beamAt b j1 * v + (job._choose_beams ps).tokenAt b j1 <
         (job._choose_beams ps).beamAt b j2 * v +
           (job._choose_beams ps).tokenAt b j2)) ∧
    (∀ k, k < (ps.getD b []).length * v →
      (∀ j, j < job.beam_size →
        (job._choose_beams ps).beamAt b j * v +
          (job._choose_beams ps).tokenAt b j ≠ k) →
      ∀ j, j < job.beam_size →
        XVal.ltb (flatCand (ps.getD b []) v k)
            ((job._choose_beams ps).scoreAt b j) = true ∨
        (flatCand (ps.getD b []) v k = (job._choose_beams ps).scoreAt b j ∧
         (job._choose_beams ps).beamAt b j * v +
           (job._choose_beams ps).tokenAt b j < k)) ∧
    ({ c6job with step := c6job.step + 2 })._choose_beams c6ps =
      { scores := [[XVal.fin 4, XVal.fin 3]], tokens := [[0, 2]],
        beams := [[0, 1]] } := by
  subst hveq
  rw [choose_beams_eq job ps hstep]
  dsimp only [SelectionResult.tokenAt, SelectionResult.beamAt, SelectionResult.scoreAt]
  set v := ((ps.getD 0 []).getD 0 []).length with hvdef
  set bm := ps.getD b [] with hbmdef
  rw [map_getD_def ([] : List (List XVal)) ps b hb ([] : List XVal),
    map_getD_def ([] : List (List XVal)) ps b hb ([] : List ℕ),
    map_getD_def ([] : List (List XVal)) ps b hb ([] : List ℕ)]
  set P := topSelect job.beam_size (idxPairs (bm.length * v) (flatCand bm v))
    with hPdef
  have hPlen : P.length = job.beam_size := by
    rw [hPdef]
    exact tpk_length _ hk
  have hjP : ∀ j, j < job.beam_size → j < P.length := by
    intro j hj
    rw [hPlen]; exact hj
  have hshape : ∀ j, j < job.beam_size →
      (P.getD j (0, XVal.negInf)).1 < bm.length * v ∧
      (P.getD j (0, XVal.negInf)).2 = flatCand bm v (P.getD j (0, XVal.negInf)).1 := by
    intro j hj
    rw [hPdef]
    exact tpk_getD_shape _ (by rw [← hPdef]; exact hjP j hj)
  have hv0 : ∀ j, j < job.beam_size → 0 < v := by
    intro j hj
    rcases Nat.eq_zero_or_pos v with h0 | h0
    · rw [h0, Nat.mul_zero] at hk
      omega
    · exact h0
  have hrec : ∀ j, j < job.beam_size →
      ((P.getD j (0, XVal.negInf)).1 / v) * v + (P.getD j (0, XVal.negInf)).1 % v =
        (P.getD j (0, XVal.negInf)).1 := by
    intro j hj
    rw [Nat.mul_comm]
    exact Nat.div_add_mod _ _
  have hgetTok : ∀ j, j < job.beam_size →
      (P.map (fun p => p.1 % v)).getD j 0 = (P.getD j (0, XVal.negInf)).1 % v := by
    intro j hj
    exact map_getD_def (0, XVal.negInf) P j (hjP j hj) 0
  have hgetBeam : ∀ j, j < job.beam_size →
      (P.map (fun p => p.1 / v)).getD j 0 = (P.getD j (0, XVal.negInf)).1 / v := by
    intro j hj
    exact map_getD_def (0, XVal.negInf) P j (hjP j hj) 0
  have hgetScore : ∀ j, j < job.beam_size →
      (P.map (fun p => p.2)).getD j XVal.negInf = (P.getD j (0, XVal.negInf)).2 := by
    intro j hj
    exact map_getD_def (0, XVal.negInf) P j (hjP j hj) XVal.negInf
  have hnonanP : ∀ j, j < job.beam_size →
      ((P.getD j (0, XVal.negInf)).2).isNaN = false := by
    intro j hj
    rw [(hshape j hj).2]
    exact flatCand_no_nan bm v hnn _
  refine ⟨⟨?_, ?_, ?_⟩, ?_, ?_, ?_, ?_⟩
  · rw [List.length_map, hPlen]
  · rw [List.length_map, hPlen]
  · rw [List.length_map, hPlen]
  · intro j hj
    rw [hgetTok j hj, hgetBeam j hj, hgetScore j hj]
    refine ⟨Nat.mod_lt _ (hv0 j hj), ?_, ?_⟩
    · rw [Nat.div_lt_iff_lt_mul (hv0 j hj)]
      exact (hshape j hj).1
    · rw [(hshape j hj).2]
      rfl
  · intro j1 j2 h12 hj2
    have hj1 : j1 < job.beam_size := lt_trans h12 hj2
    rw [hgetTok j1 hj1, hgetBeam j1 hj1, hgetScore j1 hj1,
      hgetTok j2 hj2, hgetBeam j2 hj2, hgetScore j2 hj2, hrec j1 hj1, hrec j2 hj2]
    have hsorted : selLE (P.getD j1 (0, XVal.negInf)) (P.getD j2 (0, XVal.negInf)) := by
      rw [hPdef]
      exact tpk_sorted_pair _ h12 (by rw [← hPdef]; exact hjP j2 hj2)
    have hne : (P.getD j1 (0, XVal.negInf)).1 ≠ (P.getD j2 (0, XVal.negInf)).1 := by
      rw [hPdef]
      exact tpk_fst_ne _ h12 (by rw [← hPdef]; exact hjP j2 hj2)
    exact selLE_cases hsorted hne (hnonanP j1 hj1) (hnonanP j2 hj2)
  · intro k hkN hnot j hj
    rw [hgetTok j hj, hgetBeam j hj, hgetScore j hj, hrec j hj]
    have hnot2 : ∀ m, m < P.length → (P.getD m (0, XVal.negInf)).1 ≠ k := by
      intro m hm
      have hm2 : m < job.beam_size := by rw [← hPlen]; exact hm
      have := hnot m hm2
      rw [hgetTok m hm2, hgetBeam m hm2, hrec m hm2] at this
      exact this
    have hdom : selLE (P.getD j (0, XVal.negInf)) (k, flatCand bm v k) := by
      rw [hPdef]
      exact tpk_dominates_at _ hkN (by rw [← hPdef]; exact hnot2)
        (by rw [← hPdef]; exact hjP j hj)
    have hne : (P.getD j (0, XVal.negInf)).1 ≠ k := hnot2 j (hjP j hj)
    have := selLE_cases hdom hne (hnonanP j hj) (flatCand_no_nan bm v hnn k)
    rcases this with h | ⟨heq, hlt⟩
    · exact Or.inl h
    · exact Or.inr ⟨heq.symm, hlt⟩
  · rfl

theorem claim_C6_witness :
    (((({ c6job with step := c6job.step + 2 })._choose_beams c6ps).scores.getD 0
        []).length = 2) ∧
    (({ c6job with step := c6job.step + 2 })._choose_beams c6ps).scoreAt 0 0 =
      ((c6ps.getD 0 []).getD
        ((({ c6job with step := c6job.step + 2 })._choose_beams c6ps).beamAt 0 0)
        []).getD
        ((({ c6job with step := c6job.step + 2 })._choose_beams c6ps).tokenAt 0 0)
        XVal.negInf ∧
    (({ c6job with step := c6job.step + 2 })._choose_beams c6ps =
      { scores := [[XVal.fin 4, XVal.fin 3]], tokens := [[0, 2]],
        beams := [[0, 1]] }) :=
  ⟨(claim_C6_beam_selector { c6job with step := c6job.step + 2 } c6ps 0 4
      (by decide) (by decide) (by decide) (by decide)
      (by decide)).1.1,
   ((claim_C6_beam_selector { c6job with step := c6job.step + 2 } c6ps 0 4
      (by decide) (by decide) (by decide) (by decide)
      (by decide)).2.1 0 (by decide)).2.2,
   (claim_C6_beam_selector { c6job with step := c6job.step + 2 } c6ps 0 4
      (by decide) (by decide) (by decide) (by decide)
      (by decide)).2.2.2.2⟩

/-- The ranking divisor of `finalize(top=k)` is positive. -/
theorem rank_divisor_pos (job : SearchJob) :
    (0 : ℚ) < ((job.step + 1 : ℕ) : ℚ) ^ job.opts.len_penalty := by
  positivity

/-- Normalization divides every beam's score by the same positive
constant, so the strict ranking comparison is unchanged. -/
theorem rankVal_ltb (job : SearchJob) (b i1 i2 : ℕ) :
    XVal.ltb (job.rankVal b i1) (job.rankVal b i2) =
      XVal.ltb (job.scoreAt b i1 job.step) (job.scoreAt b i2 job.step) := by
  unfold SearchJob.rankVal
  split
  · exact XVal.divQ_ltb (rank_divisor_pos job) _ _
  · rfl

theorem rankVal_eq_iff (job : SearchJob) (b i1 i2 : ℕ) :
    job.rankVal b i1 = job.rankVal b i2 ↔
      job.scoreAt b i1 job.step = job.scoreAt b i2 job.step := by
  unfold SearchJob.rankVal
  split
  · constructor
    · exact fun h => XVal.divQ_inj (ne_of_gt (rank_divisor_pos job)) h
    · exact fun h => by rw [h]
  · exact Iff.rfl

theorem rankVal_isNaN (job : SearchJob) (b i : ℕ) :
    (job.rankVal b i).isNaN = (job.scoreAt b i job.step).isNaN := by
  unfold SearchJob.rankVal
  split
  · exact XVal.divQ_isNaN _ _
  · rfl

/-- C7: for every `k ≤ beam_size`, `finalize(top=k)` returns, per batch
element, exactly `k` hypotheses — copies of the job's token/score rows
at `k` pairwise-distinct beam indices, ordered by final cumulative score
at position `step` descending (through the order-preserving length
normalization when enabled) with ties broken by ascending beam index,
and every unselected beam is beaten by (or tied at a larger beam index
than) every selected one. -/
theorem claim_C7_finalize_top (job : SearchJob) (k b : ℕ)
    (hk : k ≤ job.beam_size) (hb : b < job.batch_size)
    (hnn : ∀ i, i < job.beam_size → (job.scoreAt b i job.step).isNaN = false) :
    ((job.finalize (.some k)).tokens.getD b [] =
      (job.topkIdx k b).map (fun i => job.tokRow b i)) ∧
    ((job.finalize (.some k)).scores.getD b [] =
      (job.topkIdx k b).map (fun i => job.scoreRow b i)) ∧
    (job.topkIdx k b).length = k ∧
    (∀ m, m < k → (job.topkIdx k b).getD m 0 < job.beam_size) ∧
    (job.topkIdx k b).Nodup ∧
    (∀ m1 m2, m1 < m2 → m2 < k →
      XVal.ltb (job.scoreAt b ((job.topkIdx k b).getD m2 0) job.step)
          (job.scoreAt b ((job.topkIdx k b).getD m1 0) job.step) = true ∨
      (job.scoreAt b ((job.topkIdx k b).getD m1 0) job.step =
         job.scoreAt b ((job.topkIdx k b).getD m2 0) job.step ∧
       (job.topkIdx k b).getD m1 0 < (job.topkIdx k b).getD m2 0)) ∧
    (∀ i, i < job.beam_size → (∀ m, m < k → (job.topkIdx k b).getD m 0 ≠ i) →
      ∀ m, m < k →
        XVal.ltb (job.scoreAt b i job.step)
            (job.scoreAt b ((job.topkIdx k b).getD m 0) job.step) = true ∨
        (job.scoreAt b i job.step =
           job.scoreAt b ((job.topkIdx k b).getD m 0) job.step ∧
         (job.topkIdx k b).getD m 0 < i)) := by
  set P := topSelect k (idxPairs job.beam_size (job.rankVal b)) with hPdef
  have hPlen : P.length = k := by
    rw [hPdef]
    exact tpk_length _ hk
  have htopk : job.topkIdx k b = P.map (fun p => p.1) := by
    unfold SearchJob.topkIdx SearchJob.rankPairs
    rw [hPdef]
  have hmP : ∀ m, m < k → m < P.length := by
    intro m hm
    rw [hPlen]; exact hm
  have hgetIdx : ∀ m, m < k →
      (job.topkIdx k b).getD m 0 = (P.getD m (0, XVal.negInf)).1 := by
    intro m hm
    rw [htopk]
    exact map_getD_def (0, XVal.negInf) P m (hmP m hm) 0
  have hshape : ∀ m, m < k →
      (P.getD m (0, XVal.negInf)).1 < job.beam_size ∧
      (P.getD m (0, XVal.negInf)).2 =
        job.rankVal b (P.getD m (0, XVal.negInf)).1 := by
    intro m hm
    rw [hPdef]
    exact tpk_getD_shape _ (by rw [← hPdef]; exact hmP m hm)
  have hnonanP : ∀ m, m < k → ((P.getD m (0, XVal.negInf)).2).isNaN = false := by
    intro m hm
    rw [(hshape m hm).2, rankVal_isNaN]
    exact hnn _ (hshape m hm).1
  refine ⟨?_, ?_, ?_, ?_, ?_, ?_, ?_⟩
  · unfold SearchJob.finalize
    exact rangeMap_getD _ _ hb
  · unfold SearchJob.finalize
    exact rangeMap_getD _ _ hb
  · rw [htopk, List.length_map, hPlen]
  · intro m hm
    rw [hgetIdx m hm]
    exact (hshape m hm).1
  · rw [htopk, hPdef]
    exact topSelect_nodup_fst (idxPairs_nodup_fst _ _)
  · intro m1 m2 h12 hm2
    have hm1 : m1 < k := lt_trans h12 hm2
    rw [hgetIdx m1 hm1, hgetIdx m2 hm2]
    have hsorted : selLE (P.getD m1 (0, XVal.negInf)) (P.getD m2 (0, XVal.negInf)) := by
      rw [hPdef]
      exact tpk_sorted_pair _ h12 (by rw [← hPdef]; exact hmP m2 hm2)
    have hne : (P.getD m1 (0, XVal.negInf)).1 ≠ (P.getD m2 (0, XVal.negInf)).1 := by
      rw [hPdef]
      exact tpk_fst_ne _ h12 (by rw [← hPdef]; exact hmP m2 hm2)
    rcases selLE_cases hsorted hne (hnonanP m1 hm1) (hnonanP m2 hm2) with h | ⟨he, hi⟩
    · rw [(hshape m1 hm1).2, (hshape m2 hm2).2, rankVal_ltb] at h
      exact Or.inl h
    · rw [(hshape m1 hm1).2, (hshape m2 hm2).2, rankVal_eq_iff] at he
      exact Or.inr ⟨he, hi⟩
  · intro i hi hnot m hm
    rw [hgetIdx m hm]
    have hnot2 : ∀ m2, m2 < P.length → (P.getD m2 (0, XVal.negInf)).1 ≠ i := by
      intro m2 hm2
      have hm2k : m2 < k := by rw [← hPlen]; exact hm2
      have := hnot m2 hm2k
      rw [hgetIdx m2 hm2k] at this
      exact this
    have hdom : selLE (P.getD m (0, XVal.negInf)) (i, job.rankVal b i) := by
      rw [hPdef]
      exact tpk_dominates_at _ hi (by rw [← hPdef]; exact hnot2)
        (by rw [← hPdef]; exact hmP m hm)
    have hne : (P.getD m (0, XVal.negInf)).1 ≠ i := hnot2 m (hmP m hm)
    have hninan : (job.rankVal b i).isNaN = false := by
      rw [rankVal_isNaN]
      exact hnn i hi
    rcases selLE_cases hdom hne (hnonanP m hm) hninan with h | ⟨he, hlt⟩
    · rw [(hshape m hm).2, rankVal_ltb] at h
      exact Or.inl h
    · rw [(hshape m hm).2, rankVal_eq_iff] at he
      exact Or.inr ⟨he.symm, hlt⟩

/-- The scores of `test_finalize_top`: position 5 of each beam's row
holds the ranking value, the rest is zero. -/
def c7row (q : ℚ) : List XVal := (List.replicate 12 (XVal.fin 0)).set 5 (XVal.fin q)

def c7opts : BeamSearchStrategy :=
  { vocab_info := { size := 8, bos_idx := 1, eos_idx := 2, unk_idx := 0, pad_idx := 3 }
    max_len := 10
    beam_size := 3 }

def c7job : SearchJob :=
  { okD (c7opts.new_search_job cexSrc .none) with
    step := 5
    scores := [[c7row (1/10), c7row (9/10), c7row (3/10)],
               [c7row (4/10), c7row (7/10), c7row (2/10)]] }

theorem claim_C7_witness :
    (c7job.topkIdx 2 0).length = 2 ∧
    ((c7job.finalize (.some 2)).scores.getD 0 [] =
      (c7job.topkIdx 2 0).map (fun i => c7job.scoreRow 0 i)) ∧
    (XVal.ltb (c7job.scoreAt 0 ((c7job.topkIdx 2 0).getD 1 0) c7job.step)
        (c7job.scoreAt 0 ((c7job.topkIdx 2 0).getD 0 0) c7job.step) = true ∨
      (c7job.scoreAt 0 ((c7job.topkIdx 2 0).getD 0 0) c7job.step =
         c7job.scoreAt 0 ((c7job.topkIdx 2 0).getD 1 0) c7job.step ∧
       (c7job.topkIdx 2 0).getD 0 0 < (c7job.topkIdx 2 0).getD 1 0)) :=
  ⟨(claim_C7_finalize_top c7job 2 0 (by decide) (by decide)
      (by
        intro i hi
        have hi3 : i < 3 := hi
        interval_cases i <;> rfl)).2.2.1,
   (claim_C7_finalize_top c7job 2 0 (by decide) (by decide)
      (by
        intro i hi
        have hi3 : i < 3 := hi
        interval_cases i <;> rfl)).2.1,
   (claim_C7_finalize_top c7job 2 0 (by decide) (by decide)
      (by
        intro i hi
        have hi3 : i < 3 := hi
        interval_cases i <;> rfl)).2.2.2.2.2.1 0 1 (by decide) (by decide)⟩

/-- C3 (amended): in every successful call to `update`, each selected
candidate's joint score equals its source beam's running cumulative
score plus the chosen token's masked log-probability; the slot's token
and score history is re-derived as the source beam's entire history
(beam-lineage restructuring — the source may be a different input beam)
with the winning token and cumulative score appended at position
`step + 1` — except that a selected candidate whose source beam was
already finished has `pad` appended and its score frozen to the
source's score at the previous position (spec step 6), which is exactly
what the counterexample forces the claim to concede. -/
theorem claim_C3_update_restructure (lse : List ℚ → ℚ) (job : SearchJob)
    (dec_out : List (List XVal)) (hdone : job.done = false)
    (hlen : dec_out.length = job.batch_size * job.beam_size)
    (hw : ∀ r ∈ dec_out, r.length = job.opts.vocab_info.size)
    (hbv : job.beam_size ≤ job.opts.vocab_info.size) :
    job.update lse dec_out = .ok (job.stepCore lse dec_out) ∧
    ∀ b j, b < job.batch_size → j < job.beam_size →
      ((job.stepSel lse dec_out).beamAt b j < job.beam_size ∧
       (job.stepSel lse dec_out).scoreAt b j =
         (job.scoreAt b ((job.stepSel lse dec_out).beamAt b j) job.step).add
           ((job.stepLprobs lse dec_out b
             ((job.stepSel lse dec_out).beamAt b j)).getD
             ((job.stepSel lse dec_out).tokenAt b j) XVal.negInf)) ∧
      ((job.stepCore lse dec_out).tokRow b j =
        (job.tokRow b ((job.stepSel lse dec_out).beamAt b j)).set (job.step + 1)
          (if job.finishedAt b ((job.stepSel lse dec_out).beamAt b j)
           then job.opts.vocab_info.pad_idx
           else (job.stepSel lse dec_out).tokenAt b j)) ∧
      ((job.stepCore lse dec_out).scoreRow b j =
        (job.scoreRow b ((job.stepSel lse dec_out).beamAt b j)).set (job.step + 1)
          (if job.finishedAt b ((job.stepSel lse dec_out).beamAt b j)
           then job.scoreAt b ((job.stepSel lse dec_out).beamAt b j) job.step
           else (job.stepSel lse dec_out).scoreAt b j)) := by
  refine ⟨update_ok lse job dec_out hdone hlen, ?_⟩
  intro b j hb hj
  obtain ⟨hsrc, htok, hscore⟩ :=
    stepSel_provenance lse job dec_out b j hb hj hlen hw hbv
  refine ⟨⟨hsrc, hscore⟩, ?_, ?_⟩
  · rw [stepCore_tokRow_eq lse job dec_out b j hb hj]
    rfl
  · rw [stepCore_scoreRow_eq lse job dec_out b j hb hj]
    rfl

/-- The deficit scenario refuting C3 as stated: vocab 5
(`unk 0, bos 1, eos 2, pad 3`), beam 4, `max_len` 2.  The first update
finishes slot 0 on `eos`; at the second update only three candidates
are finite, so the fourth slot selects a `-inf` candidate whose source
beam 0 is finished — the appended token is `pad`, not the winning
token, and the appended score is the frozen one, not the selected
cumulative score. -/
def c3opts : BeamSearchStrategy :=
  { vocab_info := { size := 5, bos_idx := 1, eos_idx := 2, unk_idx := 0, pad_idx := 3 }
    max_len := 2
    beam_size := 4 }

def c3src : List (List ℕ) := [[0, 0, 0, 0]]

def c3job0 : SearchJob := okD (c3opts.new_search_job c3src .none)

def c3r1 : List XVal := [XVal.fin 0, XVal.fin 0, XVal.fin 100, XVal.fin 0, XVal.fin 0]

def c3job1 : SearchJob := okD (c3job0.update maxQ [c3r1, c3r1, c3r1, c3r1])

def c3r2 : List XVal := [XVal.fin 0, XVal.fin 0, XVal.fin 0, XVal.fin 0, XVal.fin 0]

def c3job2 : SearchJob := okD (c3job1.update maxQ [c3r2, c3r2, c3r2, c3r2])

/-- C3 counterexample: at the second update of the deficit scenario the
call succeeds, slot 3 selects winning token `0` (`unk`) with cumulative
score `-inf` from finished source beam 0, yet the appended token is
`pad = 3` and the appended score is the frozen `0`. -/
theorem claim_C3_cex :
    c3job1.update maxQ [c3r2, c3r2, c3r2, c3r2] = .ok c3job2 ∧
    c3job1.step = 1 ∧
    (c3job1.stepSel maxQ [c3r2, c3r2, c3r2, c3r2]).beamAt 0 3 = 0 ∧
    c3job1.finishedAt 0 0 = true ∧
    (c3job1.stepSel maxQ [c3r2, c3r2, c3r2, c3r2]).tokenAt 0 3 = 0 ∧
    (c3job1.stepSel maxQ [c3r2, c3r2, c3r2, c3r2]).scoreAt 0 3 = XVal.negInf ∧
    c3job2.tokAt 0 3 2 = 3 ∧
    c3job2.scoreAt 0 3 2 = XVal.fin 0 ∧
    ((3 : ℕ) ≠ 0 ∧ XVal.fin 0 ≠ XVal.negInf) :=
  ⟨by with_unfolding_all rfl, by with_unfolding_all decide⟩

theorem claim_C3_witness :
    c3job0.update maxQ [c3r1, c3r1, c3r1, c3r1] =
      .ok (c3job0.stepCore maxQ [c3r1, c3r1, c3r1, c3r1]) ∧
    (c3job0.stepSel maxQ [c3r1, c3r1, c3r1, c3r1]).scoreAt 0 0 =
      (c3job0.scoreAt 0
        ((c3job0.stepSel maxQ [c3r1, c3r1, c3r1, c3r1]).beamAt 0 0)
        c3job0.step).add
        ((c3job0.stepLprobs maxQ [c3r1, c3r1, c3r1, c3r1] 0
          ((c3job0.stepSel maxQ [c3r1, c3r1, c3r1, c3r1]).beamAt 0 0)).getD
          ((c3job0.stepSel maxQ [c3r1, c3r1, c3r1, c3r1]).tokenAt 0 0)
          XVal.negInf) ∧
    (c3job0.stepCore maxQ [c3r1, c3r1, c3r1, c3r1]).tokRow 0 0 =
      (c3job0.tokRow 0
        ((c3job0.stepSel maxQ [c3r1, c3r1, c3r1, c3r1]).beamAt 0 0)).set
        (c3job0.step + 1)
        (if c3job0.finishedAt 0
            ((c3job0.stepSel maxQ [c3r1, c3r1, c3r1, c3r1]).beamAt 0 0)
         then c3job0.opts.vocab_info.pad_idx
         else (c3job0.stepSel maxQ [c3r1, c3r1, c3r1, c3r1]).tokenAt 0 0) :=
  ⟨(claim_C3_update_restructure maxQ c3job0 [c3r1, c3r1, c3r1, c3r1] rfl rfl
      (by decide) (by decide)).1,
   (((claim_C3_update_restructure maxQ c3job0 [c3r1, c3r1, c3r1, c3r1] rfl rfl
      (by decide) (by decide)).2 0 0 (by decide) (by decide)).1).2,
   (((claim_C3_update_restructure maxQ c3job0 [c3r1, c3r1, c3r1, c3r1] rfl rfl
      (by decide) (by decide)).2 0 0 (by decide) (by decide)).2).1⟩

/-- C4 (amended): the finished flag is monotone slot-wise — once a
slot's flag is true, every subsequent `update` keeps it true (the flag
is OR-ed, never reset); and at every subsequent update, any slot whose
*selected source beam* was finished gets `pad` appended and its score
frozen to the source's previous score.  The unconditioned form of the
claim — that a finished slot always receives `pad` and a frozen score —
fails when an unfinished source beam's continuation outranks the frozen
candidate and is restructured into the finished slot, which is what the
counterexample exhibits. -/
theorem claim_C4_finished_flag (lse : List ℚ → ℚ) (job : SearchJob)
    (dec_out : List (List XVal)) (hdone : job.done = false)
    (hlen : dec_out.length = job.batch_size * job.beam_size)
    (hw : ∀ r ∈ dec_out, r.length = job.opts.vocab_info.size)
    (hbv : job.beam_size ≤ job.opts.vocab_info.size)
    (hcap : ∀ b i, b < job.batch_size → i < job.beam_size →
      job.step + 1 < (job.tokRow b i).length ∧
      job.step + 1 < (job.scoreRow b i).length) :
    job.update lse dec_out = .ok (job.stepCore lse dec_out) ∧
    (∀ b j, b < job.batch_size → j < job.beam_size →
      job.finishedAt b j = true →
      (job.stepCore lse dec_out).finishedAt b j = true) ∧
    (∀ b j, b < job.batch_size → j < job.beam_size →
      job.finishedAt b ((job.stepSel lse dec_out).beamAt b j) = true →
      (job.stepCore lse dec_out).tokAt b j (job.step + 1) =
        job.opts.vocab_info.pad_idx ∧
      (job.stepCore lse dec_out).scoreAt b j (job.step + 1) =
        job.scoreAt b ((job.stepSel lse dec_out).beamAt b j) job.step) := by
  refine ⟨update_ok lse job dec_out hdone hlen, ?_, ?_⟩
  · intro b j hb hj hfin
    rw [stepCore_finishedAt_eq lse job dec_out b j hb hj]
    unfold SearchJob.stepMask
    rw [hfin]
    rfl
  · intro b j hb hj hfinsrc
    obtain ⟨hsrc, htok, hscore⟩ :=
      stepSel_provenance lse job dec_out b j hb hj hlen hw hbv
    constructor
    · unfold SearchJob.tokAt
      rw [stepCore_tokRow_eq lse job dec_out b j hb hj]
      unfold SearchJob.stepTokRow
      rw [if_pos hfinsrc]
      exact setRow_getD_self _ _ _ _ (hcap b _ hb hsrc).1
    · unfold SearchJob.scoreAt
      rw [stepCore_scoreRow_eq lse job dec_out b j hb hj]
      unfold SearchJob.stepScoreRow
      rw [if_pos hfinsrc]
      exact setRow_getD_self _ _ _ _ (hcap b _ hb hsrc).2

/-- The scenario refuting C4 as stated: vocab 8
(`unk 0, bos 1, eos 2, pad 3`), beam 2.  The first update finishes
slot 1 on `eos` with frozen score `-500` while slot 0 continues at
score `0`; at the second update both winners come from the unfinished
beam 0, so the finished slot 1 keeps its flag (it is OR-ed with the old
mask) but receives token 6 — not `pad` — and score `0` — not the frozen
`-500`. -/
def c4opts : BeamSearchStrategy :=
  { vocab_info := { size := 8, bos_idx := 1, eos_idx := 2, unk_idx := 0, pad_idx := 3 }
    max_len := 10
    beam_size := 2 }

def c4job0 : SearchJob := okD (c4opts.new_search_job c3src .none)

def c4r1 : List XVal :=
  [XVal.fin 0, XVal.fin 0, XVal.fin 50, XVal.fin 0, XVal.fin 100, XVal.fin 0,
   XVal.fin 0, XVal.fin 0]

def c4job1 : SearchJob := okD (c4job0.update maxQ [c4r1, c4r1])

def c4r2a : List XVal :=
  [XVal.fin 0, XVal.fin 0, XVal.fin 0, XVal.fin 0, XVal.fin 0, XVal.fin 9,
   XVal.fin 9, XVal.fin 0]

def c4r2b : List XVal :=
  [XVal.fin 0, XVal.fin 0, XVal.fin 0, XVal.fin 0, XVal.fin 0, XVal.fin 0,
   XVal.fin 0, XVal.fin 0]

def c4job2 : SearchJob := okD (c4job1.update maxQ [c4r2a, c4r2b])

set_option maxRecDepth 8000 in
/-- C4 counterexample: slot (0,1) becomes finished at the first update
(its selected token is `eos` and its flag turns true), yet the next
update appends token 6 — not `pad` — to that slot and records score 0 —
not the score it finished with. -/
theorem claim_C4_cex :
    c4job1.tokAt 0 1 1 = 2 ∧
    c4job1.finishedAt 0 1 = true ∧
    c4job1.scoreAt 0 1 1 = XVal.fin (-500) ∧
    c4job1.update maxQ [c4r2a, c4r2b] = .ok c4job2 ∧
    c4job2.finishedAt 0 1 = true ∧
    c4job2.tokAt 0 1 2 = 6 ∧
    c4job2.scoreAt 0 1 2 = XVal.fin 0 ∧
    ((6 : ℕ) ≠ 3 ∧ XVal.fin 0 ≠ XVal.fin (-500)) :=
  ⟨by with_unfolding_all decide, by with_unfolding_all decide,
   by with_unfolding_all decide, by with_unfolding_all rfl,
   by with_unfolding_all decide⟩

theorem claim_C4_witness :
    ((c3job1.stepCore maxQ [c3r2, c3r2, c3r2, c3r2]).finishedAt 0 0 = true) ∧
    ((c3job1.stepCore maxQ [c3r2, c3r2, c3r2, c3r2]).tokAt 0 0 2 = 3) ∧
    ((c3job1.stepCore maxQ [c3r2, c3r2, c3r2, c3r2]).scoreAt 0 0 2 =
      c3job1.scoreAt 0
        ((c3job1.stepSel maxQ [c3r2, c3r2, c3r2, c3r2]).beamAt 0 0) c3job1.step) := by
  have h := claim_C4_finished_flag maxQ c3job1 [c3r2, c3r2, c3r2, c3r2]
      (by with_unfolding_all decide) (by with_unfolding_all decide)
      (by with_unfolding_all decide) (by with_unfolding_all decide)
      (by
        intro b i hbb hii
        have hb1 : b < 1 := by with_unfolding_all exact hbb
        have hi4 : i < 4 := by with_unfolding_all exact hii
        interval_cases b <;> interval_cases i <;>
          exact ⟨by with_unfolding_all decide, by with_unfolding_all decide⟩)
  exact ⟨h.2.1 0 0 (by with_unfolding_all decide) (by with_unfolding_all decide)
          (by with_unfolding_all decide),
         (h.2.2 0 0 (by with_unfolding_all decide) (by with_unfolding_all decide)
          (by with_unfolding_all decide)).1,
         (h.2.2 0 0 (by with_unfolding_all decide) (by with_unfolding_all decide)
          (by with_unfolding_all decide)).2⟩

end Fairseq2
